import Mathlib

/-!
Verification of the `zari` multitrack audio engine core
(`src/engine/{mod,utils,clip,track,timeline}.rs`) against its
natural-language specification.

Modelling conventions (shallow embedding):

* `u64`/`u32`/`usize` quantities (sample positions, frame counts, ids,
  channel counts) are modelled as `ℕ`; none of the verified operations
  can overflow on the inputs the theorems quantify over.
* `f64` sample values and `f32` volumes are modelled as exact rationals
  (`ℚ`): every arithmetic operation appearing in the verified code paths
  (add, mul, div by constants, clamp) is modelled exactly.  Where IEEE
  comparison semantics matter (`Track::set_volume_percent` and NaN), a
  dedicated `F32` type with a NaN value models the comparisons.
* `HashSet<TrackId>` is modelled as `Finset ℕ`.
* Fallible Rust code returns `Except AudioError`; Rust code that can
  panic is modelled with `Option`, `none` standing for the panic.
* Rendering is modelled at `T = f64` (`FromF64Sample for f64` is the
  identity), so the generic `process<T>` specialises to plain rational
  arithmetic on the buffer.
-/

deriving instance DecidableEq for Except

namespace Zari

/-- Sample formats of the source audio (`hound::SampleFormat`). -/
inductive SampleFormat where
  | int
  | float
deriving DecidableEq

/-- Mirror of `enum Scale` in `src/engine/mod.rs`. -/
inductive Scale where
  | i8
  | i16
  | i24
  | i32
  | f32
deriving DecidableEq

/-- Mirror of `Scale::get_f64_scale` (`src/engine/mod.rs:24-39`): the
constants `I8_SCALE = 1/127`, `I16_SCALE = 1/32767`,
`I24_SCALE = 1/((1<<23)-1) = 1/8388607`, `I32_SCALE = 1/2147483647`,
and `1.0` for `F32`, as exact rationals. -/
def Scale.get_f64_scale : Scale → ℚ
  | .i8 => 1 / 127
  | .i16 => 1 / 32767
  | .i24 => 1 / 8388607
  | .i32 => 1 / 2147483647
  | .f32 => 1

/-- Rust `f64::clamp(lo, hi)`: returns `lo` if `x < lo`, `hi` if
`x > hi`, else `x`. -/
def rclamp (x lo hi : ℚ) : ℚ := if x < lo then lo else if x > hi then hi else x

namespace Utils

/-- Mirror of `Utils::convert_sample_to_f64` (`src/engine/utils.rs:6-11`):
`(sample.into() * scale.get_f64_scale()).clamp(-1.0, 1.0)`. -/
def convert_sample_to_f64 (sample : ℚ) (scale : Scale) : ℚ :=
  rclamp (sample * scale.get_f64_scale) (-1) 1

/-- Mirror of `Utils::convert_samples_to_f64` (`src/engine/utils.rs:13-21`). -/
def convert_samples_to_f64 (samples : List ℚ) (scale : Scale) : List ℚ :=
  samples.map (fun sample => convert_sample_to_f64 sample scale)

end Utils

/-- Mirror of `AudioError` (`src/engine/error.rs`).  `fileError`,
`resampleError` and `resamplerConstructionError` abstract the payloads of
the corresponding external-crate errors. -/
inductive AudioError where
  | fileError
  | resampleError
  | resamplerConstructionError
  | trackNotFound (id : ℕ)
  | invalidVolume (v : ℚ)
  | invalidSampleRate (r : ℕ)
  | unsupportedBitsPerSample (bits : ℕ)
deriving DecidableEq

/-- The header data of a decoded source (`hound::WavSpec`). -/
structure WavSpec where
  sample_format : SampleFormat
  bits_per_sample : ℕ
  channels : ℕ
  sample_rate : ℕ
deriving DecidableEq

/-- A parsed source file: its spec plus the raw per-sample values
(integer raw values for `int` formats, float values for `float`),
as delivered by `reader.into_samples()`. -/
structure WavSource where
  spec : WavSpec
  samples : List ℚ
deriving DecidableEq

/-- Mirror of `struct Clip` (`src/engine/clip.rs:7-12`). -/
structure Clip where
  data : List ℚ
  channel : ℕ
  start_time_in_samples : ℕ
deriving DecidableEq

namespace Clip

/-- Mirror of `Clip::read_samples_as_f64` (`src/engine/clip.rs:42-52`),
with the sample extraction already done by `WavSource`. -/
def read_samples_as_f64 (samples : List ℚ) (scale : Scale) : List ℚ :=
  Utils.convert_samples_to_f64 samples scale

/-- Mirror of `Clip::decode_samples_to_f64` (`src/engine/clip.rs:54-72`):
dispatch on sample format and bit depth; unsupported depths produce
`UnsupportedBitsPerSample`.  Note that the channel count is never
inspected. -/
def decode_samples_to_f64 (src : WavSource) : Except AudioError (List ℚ) :=
  match src.spec.sample_format with
  | .int =>
    match src.spec.bits_per_sample with
    | 8 => .ok (read_samples_as_f64 src.samples .i8)
    | 16 => .ok (read_samples_as_f64 src.samples .i16)
    | 24 => .ok (read_samples_as_f64 src.samples .i24)
    | 32 => .ok (read_samples_as_f64 src.samples .i32)
    | other => .error (.unsupportedBitsPerSample other)
  | .float =>
    match src.spec.bits_per_sample with
    | 32 => .ok (read_samples_as_f64 src.samples .f32)
    | other => .error (.unsupportedBitsPerSample other)

/-- Signature of `Resampler::resample` (`src/engine/resampler.rs`): the
sinc-interpolation filter of the external `rubato` crate is outside the
scope of this model, so `Clip::from_path` is parametrised by it.
Arguments follow the call site: samples, new rate, old rate, channels. -/
abbrev ResampleFn := List ℚ → ℕ → ℕ → ℕ → Except AudioError (List ℚ)

/-- Mirror of `Clip::from_path` (`src/engine/clip.rs:15-40`), with the
already-parsed source standing in for the path (file parsing is out of
scope) and the resampler passed in as `resample`.  The channel count of
the source is stored verbatim; no validation of it happens anywhere. -/
def from_source (resample : ResampleFn) (src : WavSource)
    (start_time_in_samples : ℕ) (timeline_sample_rate : ℕ) :
    Except AudioError Clip :=
  match decode_samples_to_f64 src with
  | .error e => .error e
  | .ok samples =>
    match (if src.spec.sample_rate ≠ timeline_sample_rate then
            resample samples timeline_sample_rate src.spec.sample_rate src.spec.channels
          else .ok samples) with
    | .error e => .error e
    | .ok data =>
      .ok { data := data, channel := src.spec.channels,
            start_time_in_samples := start_time_in_samples }

/-- Mirror of `Clip::sample_count` (`src/engine/clip.rs:94-96`): the
length of the interleaved data buffer. -/
def sample_count (c : Clip) : ℕ := c.data.length

/-- Mirror of `Clip::duration_in_samples` (`src/engine/clip.rs:74-76`):
`sample_count / channel` (integer division). -/
def duration_in_samples (c : Clip) : ℕ := c.sample_count / c.channel

/-- Mirror of `Clip::end_time_in_samples` (`src/engine/clip.rs:82-84`). -/
def end_time_in_samples (c : Clip) : ℕ :=
  c.start_time_in_samples + c.duration_in_samples

/-- Mirror of `Clip::is_mono` (`src/engine/clip.rs:86-88`). -/
def is_mono (c : Clip) : Bool := c.channel == 1

/-- Mirror of `Clip::is_stereo` (`src/engine/clip.rs:90-92`). -/
def is_stereo (c : Clip) : Bool := c.channel == 2

/-- Mirror of `Clip::write_to_frame` (`src/engine/clip.rs:98-111`):
additive write at `frame_index * output_channels + channel`; an
out-of-bounds position is silently ignored (`buffer.get_mut` returns
`None`). -/
def write_to_frame (buffer : List ℚ) (frame_index : ℕ) (channel : ℕ)
    (sample : ℚ) (output_channels : ℕ) : List ℚ :=
  let position := frame_index * output_channels + channel
  match buffer[position]? with
  | some s => buffer.set position (s + sample)
  | none => buffer

/-- Mirror of `Clip::process_sample` (`src/engine/clip.rs:113-155`).
The mono branch writes the scaled sample into every output channel; the
stereo branch writes `left+right` when the output is mono and otherwise
left into channel 0 and right into channel 1. -/
def process_sample (c : Clip) (buffer : List ℚ) (volume : ℚ)
    (output_channels : ℕ) (playhead_position : ℕ) (frame_index : ℕ) :
    List ℚ :=
  let frame_within_clip := playhead_position - c.start_time_in_samples
  let buffer1 :=
    if c.is_mono then
      match c.data[frame_within_clip]? with
      | some sample =>
        let sample_t := sample * volume
        (List.range output_channels).foldl
          (fun b channel => write_to_frame b frame_index channel sample_t output_channels)
          buffer
      | none => buffer
    else buffer
  if c.is_stereo then
    let idx := frame_within_clip * 2
    match c.data[idx]?, c.data[idx + 1]? with
    | some left, some right =>
      if output_channels == 1 then
        write_to_frame buffer1 frame_index 0 ((left + right) * volume) output_channels
      else
        write_to_frame
          (write_to_frame buffer1 frame_index 0 (left * volume) output_channels)
          frame_index 1 (right * volume) output_channels
    | _, _ => buffer1
  else buffer1

end Clip

/-- Mirror of `struct Track` (`src/engine/track.rs:37-44`); `TrackId`
is modelled directly as `ℕ`. -/
structure Track where
  id : ℕ
  name : String
  volume : ℚ
  clips : List Clip
  is_muted : Bool
  is_soloed : Bool
deriving DecidableEq

namespace Track

/-- Mirror of `impl Default for Track` (`src/engine/track.rs:141-152`). -/
def default : Track :=
  { id := 1, name := "Default Track", volume := 1, clips := [],
    is_muted := false, is_soloed := false }

/-- Mirror of `Track::new` (`src/engine/track.rs:47-53`). -/
def new (id : ℕ) : Track :=
  { default with id := id, name := "Track " ++ toString id }

/-- Mirror of `Track::find_clip_at_playhead_position`
(`src/engine/track.rs:59-64`): first clip whose half-open span
contains the playhead. -/
def find_clip_at_playhead_position (t : Track) (playhead_position : ℕ) :
    Option Clip :=
  t.clips.find? (fun c =>
    decide (playhead_position ≥ c.start_time_in_samples) &&
    decide (playhead_position < c.end_time_in_samples))

/-- Mirror of `Track::mute` (`src/engine/track.rs:98-100`). -/
def mute (t : Track) : Track := { t with is_muted := true }

/-- Mirror of `Track::unmute` (`src/engine/track.rs:94-96`). -/
def unmute (t : Track) : Track := { t with is_muted := false }

/-- Mirror of `Track::solo` (`src/engine/track.rs:102-104`). -/
def solo (t : Track) : Track := { t with is_soloed := true }

/-- Mirror of `Track::unsolo` (`src/engine/track.rs:106-108`). -/
def unsolo (t : Track) : Track := { t with is_soloed := false }

/-- Mirror of `Track::set_volume_percent` (`src/engine/track.rs:118-125`)
under the exact-rational idealisation of `f32` (the IEEE-comparison
refinement of this function, including NaN, lives in the `FloatModel`
namespace below). -/
def set_volume_percent (t : Track) (percent : ℚ) : Except AudioError Track :=
  let volume := percent / 100
  if volume < 0 ∨ volume > 1 then .error (.invalidVolume volume)
  else .ok { t with volume := volume }

/-- Mirror of `Track::add_clip` (`src/engine/track.rs:127-138`): the new
start position is `last.start_time_in_samples + last.sample_count + 1`
(note: `sample_count`, the interleaved length, not the frame count), or
`0` on an empty track. -/
def add_clip (t : Track) (resample : Clip.ResampleFn) (src : WavSource)
    (timeline_sample_rate : ℕ) : Except AudioError Track :=
  let start_time_in_samples : ℕ :=
    match t.clips.getLast? with
    | some c => c.start_time_in_samples + c.sample_count + 1
    | none => 0
  match Clip.from_source resample src start_time_in_samples timeline_sample_rate with
  | .error e => .error e
  | .ok clip => .ok { t with clips := t.clips ++ [clip] }

end Track

/-- Mirror of `struct Timeline` (`src/engine/timeline.rs:5-10`); the
`HashSet<TrackId>` cache is a `Finset ℕ`. -/
structure Timeline where
  tracks : List Track
  active_track_ids : Finset ℕ
  sample_rate : ℕ
  playhead_position : ℕ
deriving DecidableEq

namespace Timeline

/-- Mirror of `Timeline::new` (`src/engine/timeline.rs:13-20`). -/
def new (sample_rate : ℕ) : Timeline :=
  { tracks := [], active_track_ids := ∅, sample_rate := sample_rate,
    playhead_position := 0 }

/-- Mirror of `Timeline::new_track` (`src/engine/timeline.rs:22-35`):
id is `last.id + 1` (or `1` on an empty timeline); the fresh track is
inserted into the active-id cache unconditionally. -/
def new_track (tl : Timeline) : Timeline × ℕ :=
  let track_id : ℕ :=
    match tl.tracks.getLast? with
    | some track => track.id + 1
    | none => 1
  let track := Track.new track_id
  ({ tl with tracks := tl.tracks ++ [track],
             active_track_ids := insert track.id tl.active_track_ids },
   track_id)

/-- Mirror of `Timeline::get_track` (`src/engine/timeline.rs:192-194`):
first track with the given id. -/
def get_track (tl : Timeline) (track_id : ℕ) : Option Track :=
  tl.tracks.find? (fun t => t.id == track_id)

/-- Functional counterpart of mutating through
`Timeline::get_mut_track` (`src/engine/timeline.rs:188-190`): apply `f`
to the first track with the given id, leave the rest unchanged. -/
def update_first_track (tracks : List Track) (track_id : ℕ)
    (f : Track → Track) : List Track :=
  match tracks with
  | [] => []
  | t :: rest =>
    if t.id == track_id then f t :: rest
    else t :: update_first_track rest track_id f

/-- Mirror of `Timeline::mute` (`src/engine/timeline.rs:77-89`): only
when the track is not yet muted does it get muted, unsoloed, and removed
from the active cache; otherwise the call is a no-op returning `Ok`. -/
def mute (tl : Timeline) (track_id : ℕ) : Except AudioError Timeline :=
  match tl.get_track track_id with
  | none => .error (.trackNotFound track_id)
  | some track =>
    if !track.is_muted then
      .ok { tl with
        tracks := update_first_track tl.tracks track_id
          (fun t => Track.unsolo (Track.mute t)),
        active_track_ids := tl.active_track_ids.erase track_id }
    else .ok tl

/-- Mirror of `Timeline::unmute` (`src/engine/timeline.rs:91-102`). -/
def unmute (tl : Timeline) (track_id : ℕ) : Except AudioError Timeline :=
  match tl.get_track track_id with
  | none => .error (.trackNotFound track_id)
  | some track =>
    if track.is_muted then
      .ok { tl with
        tracks := update_first_track tl.tracks track_id Track.unmute,
        active_track_ids := insert track_id tl.active_track_ids }
    else .ok tl

/-- Mirror of `Timeline::is_muted` (`src/engine/timeline.rs:104-110`). -/
def is_muted (tl : Timeline) (track_id : ℕ) : Except AudioError Bool :=
  match tl.get_track track_id with
  | none => .error (.trackNotFound track_id)
  | some track => .ok track.is_muted

/-- Track-list effect of `Timeline::solo`: solo the first track with
the given id (`track.solo()` through `get_mut_track`), then unsolo and
mute every track whose id differs (the `iter_mut().filter(...)` loop of
`src/engine/timeline.rs:119-125`). -/
def solo_tracks (tracks : List Track) (track_id : ℕ) : List Track :=
  (update_first_track tracks track_id Track.solo).map
    (fun t => if t.id == track_id then t else Track.mute (Track.unsolo t))

/-- Mirror of `Timeline::solo` (`src/engine/timeline.rs:112-131`): when
the track is not yet soloed, it is soloed, every track with a different
id is unsoloed and muted, and the active cache is cleared down to the
soloed id alone; otherwise the call is a no-op returning `Ok`. -/
def solo (tl : Timeline) (track_id : ℕ) : Except AudioError Timeline :=
  match tl.get_track track_id with
  | none => .error (.trackNotFound track_id)
  | some track =>
    if !track.is_soloed then
      .ok { tl with
        tracks := solo_tracks tl.tracks track_id,
        active_track_ids := {track_id} }
    else .ok tl

/-- Mirror of `Timeline::unsolo` (`src/engine/timeline.rs:133-146`). -/
def unsolo (tl : Timeline) (track_id : ℕ) : Except AudioError Timeline :=
  match tl.get_track track_id with
  | none => .error (.trackNotFound track_id)
  | some track =>
    if track.is_soloed then
      let tl1 := { tl with
        tracks := update_first_track tl.tracks track_id Track.unsolo }
      if track.is_muted then
        .ok { tl1 with active_track_ids := tl1.active_track_ids.erase track_id }
      else .ok tl1
    else .ok tl

/-- Mirror of `Timeline::is_soloed` (`src/engine/timeline.rs:148-154`). -/
def is_soloed (tl : Timeline) (track_id : ℕ) : Except AudioError Bool :=
  match tl.get_track track_id with
  | none => .error (.trackNotFound track_id)
  | some track => .ok track.is_soloed

/-- Mirror of `Timeline::set_volume` (`src/engine/timeline.rs:53-61`)
(rational idealisation, as for `Track.set_volume_percent`). -/
def set_volume (tl : Timeline) (track_id : ℕ) (volume_percent : ℚ) :
    Except AudioError Timeline :=
  match tl.get_track track_id with
  | none => .error (.trackNotFound track_id)
  | some track =>
    match track.set_volume_percent volume_percent with
    | .error e => .error e
    | .ok track2 =>
      .ok { tl with tracks := update_first_track tl.tracks track_id (fun _ => track2) }

/-- Mirror of `Timeline::set_track_name` (`src/engine/timeline.rs:63-75`). -/
def set_track_name (tl : Timeline) (track_id : ℕ) (new_name : String) :
    Except AudioError Timeline :=
  match tl.get_track track_id with
  | none => .error (.trackNotFound track_id)
  | some _ =>
    .ok { tl with
      tracks := update_first_track tl.tracks track_id (fun t => { t with name := new_name }) }

/-- Mirror of `Timeline::add_clip` (`src/engine/timeline.rs:37-51`). -/
def add_clip (tl : Timeline) (resample : Clip.ResampleFn) (track_id : ℕ)
    (src : WavSource) : Except AudioError Timeline :=
  let timeline_sample_rate := tl.sample_rate
  match tl.get_track track_id with
  | none => .error (.trackNotFound track_id)
  | some track =>
    match track.add_clip resample src timeline_sample_rate with
    | .error e => .error e
    | .ok track2 =>
      .ok { tl with tracks := update_first_track tl.tracks track_id (fun _ => track2) }

/-- Mirror of `Timeline::reset_playhead` (`src/engine/timeline.rs:184-186`). -/
def reset_playhead (tl : Timeline) : Timeline :=
  { tl with playhead_position := 0 }

/-- Body of the per-frame loop of `Timeline::process`
(`src/engine/timeline.rs:205-230`): find the first soloed track; keep
tracks matching its id (else the unmuted ones); pair each with its
active clip at the current playhead if any; accumulate each clip's
contribution into the buffer. -/
def process_frame (tl : Timeline) (buffer : List ℚ)
    (output_channels : ℕ) (frame_idx : ℕ) : List ℚ :=
  let soloed_track := tl.tracks.find? (fun t => t.is_soloed)
  let audible := tl.tracks.filter (fun track =>
    match soloed_track with
    | some s => track.id == s.id
    | none => !track.is_muted)
  let contributions := audible.filterMap (fun track =>
    (track.find_clip_at_playhead_position tl.playhead_position).map
      (fun clip => (clip, track.volume)))
  contributions.foldl
    (fun b cv =>
      Clip.process_sample cv.1 b cv.2 output_channels tl.playhead_position frame_idx)
    buffer

/-- Frame recursion of `Timeline::process`: after each frame the
playhead advances by one. -/
def process_loop : Timeline → List ℚ → ℕ → ℕ → ℕ → Timeline × List ℚ
  | tl, buffer, _, _, 0 => (tl, buffer)
  | tl, buffer, output_channels, frame_idx, n + 1 =>
    let buffer2 := process_frame tl buffer output_channels frame_idx
    process_loop { tl with playhead_position := tl.playhead_position + 1 }
      buffer2 output_channels (frame_idx + 1) n

/-- Mirror of `Timeline::process` (`src/engine/timeline.rs:196-234`) at
`T = f64`.  `num_frames = buffer.len() / samples_per_frame` divides by
`output_channels`; in Rust this integer division panics when
`output_channels == 0`, modelled here by `none`.  Otherwise
`buffer.fill(T::default())` zeroes the buffer (the `List.replicate`)
before the frame loop accumulates into it. -/
def process (tl : Timeline) (buffer : List ℚ) (output_channels : ℕ) :
    Option (Timeline × List ℚ) :=
  if output_channels = 0 then none
  else
    let num_frames := buffer.length / output_channels
    some (process_loop tl (List.replicate buffer.length 0) output_channels 0 num_frames)

end Timeline

/-! ## Mute/solo cache invariants -/

/-- Ids of the non-muted tracks, as a set. -/
def unmutedIds (tracks : List Track) : Finset ℕ :=
  ((tracks.filter (fun t => !t.is_muted)).map Track.id).toFinset

/-- Ids of the soloed tracks, as a set. -/
def soloedIds (tracks : List Track) : Finset ℕ :=
  ((tracks.filter (fun t => t.is_soloed)).map Track.id).toFinset

/-- Ids of the non-muted tracks other than `sid`, as a set. -/
def othersUnmutedIds (tracks : List Track) (sid : ℕ) : Finset ℕ :=
  ((tracks.filter (fun t => !(t.id == sid) && !t.is_muted)).map Track.id).toFinset

/-- The invariant claimed by the specification: the cached audible set
is exactly the soloed tracks when any track is soloed, else exactly the
non-muted tracks. -/
def ClaimedAudibleInv (tl : Timeline) : Prop :=
  tl.active_track_ids =
    (if tl.tracks.any (fun t => t.is_soloed) then soloedIds tl.tracks
     else unmutedIds tl.tracks)

/-- The invariant the code actually maintains: when a track `s` is
soloed, the cache holds `s` plus every non-muted track other than `s`
(tracks created or unmuted after the solo enter the cache); when no
track is soloed, the cache holds exactly the non-muted tracks. -/
def CacheInv (tl : Timeline) : Prop :=
  (∀ s, tl.tracks.find? (fun t => t.is_soloed) = some s →
    tl.active_track_ids = insert s.id (othersUnmutedIds tl.tracks s.id)) ∧
  (tl.tracks.find? (fun t => t.is_soloed) = none →
    tl.active_track_ids = unmutedIds tl.tracks)

/-- Track ids are strictly increasing in creation order. -/
def IdsSorted (tracks : List Track) : Prop :=
  (tracks.map Track.id).Pairwise (· < ·)

/-- No two distinct tracks are soloed simultaneously. -/
def AtMostOneSoloed (tracks : List Track) : Prop :=
  ∀ t1 ∈ tracks, ∀ t2 ∈ tracks,
    t1.is_soloed = true → t2.is_soloed = true → t1.id = t2.id

/-- The full inductive invariant of reachable timelines. -/
def Inv (tl : Timeline) : Prop :=
  IdsSorted tl.tracks ∧ AtMostOneSoloed tl.tracks ∧ CacheInv tl

/-- Timelines reachable from `Timeline::new` through the control
surface and the render entry point.  (`set_playhead_seconds` is omitted:
it touches only the playhead, like `reset_playhead`, and takes an `f64`
seconds argument outside this model's scope.) -/
inductive Reachable : Timeline → Prop where
  | new (sample_rate : ℕ) : Reachable (Timeline.new sample_rate)
  | new_track {tl : Timeline} : Reachable tl → Reachable (tl.new_track).1
  | mute {tl tl2 : Timeline} {track_id : ℕ} :
      Reachable tl → tl.mute track_id = .ok tl2 → Reachable tl2
  | unmute {tl tl2 : Timeline} {track_id : ℕ} :
      Reachable tl → tl.unmute track_id = .ok tl2 → Reachable tl2
  | solo {tl tl2 : Timeline} {track_id : ℕ} :
      Reachable tl → tl.solo track_id = .ok tl2 → Reachable tl2
  | unsolo {tl tl2 : Timeline} {track_id : ℕ} :
      Reachable tl → tl.unsolo track_id = .ok tl2 → Reachable tl2
  | set_volume {tl tl2 : Timeline} {track_id : ℕ} {p : ℚ} :
      Reachable tl → tl.set_volume track_id p = .ok tl2 → Reachable tl2
  | set_track_name {tl tl2 : Timeline} {track_id : ℕ} {s : String} :
      Reachable tl → tl.set_track_name track_id s = .ok tl2 → Reachable tl2
  | add_clip {tl tl2 : Timeline} {r : Clip.ResampleFn} {track_id : ℕ} {src : WavSource} :
      Reachable tl → tl.add_clip r track_id src = .ok tl2 → Reachable tl2
  | reset_playhead {tl : Timeline} : Reachable tl → Reachable tl.reset_playhead
  | process {tl tl2 : Timeline} {buffer out : List ℚ} {oc : ℕ} :
      Reachable tl → tl.process buffer oc = some (tl2, out) → Reachable tl2

/-! ## IEEE-comparison model of `Track::set_volume_percent`

The `f32` arithmetic of `set_volume_percent` is modelled with an
explicit NaN (and infinities): IEEE comparisons involving NaN are
false, division of a finite value by `100.0` stays finite (idealised as
exact), and `NaN/100 = NaN`, `±inf/100 = ±inf`. -/

namespace FloatModel

/-- An `f32` value: NaN, the two infinities, or a finite value
(idealised as an exact rational). -/
inductive F32 where
  | nan
  | inf
  | negInf
  | finite (q : ℚ)
deriving DecidableEq

/-- Division by the constant `100.0`. -/
def F32.div100 : F32 → F32
  | .nan => .nan
  | .inf => .inf
  | .negInf => .negInf
  | .finite q => .finite (q / 100)

/-- IEEE `<` on `f32`: false whenever either side is NaN. -/
def F32.lt : F32 → F32 → Bool
  | .nan, _ => false
  | _, .nan => false
  | .negInf, .negInf => false
  | .negInf, _ => true
  | _, .negInf => false
  | .inf, _ => false
  | .finite _, .inf => true
  | .finite a, .finite b => decide (a < b)

/-- Modelled from the spec: whether a value "falls inside `[0,1]`"
(NaN and the infinities do not). -/
def F32.mem_unit_interval : F32 → Bool
  | .finite q => decide (0 ≤ q) && decide (q ≤ 1)
  | _ => false

/-- The volume state of a track (the only field
`Track::set_volume_percent` touches). -/
structure TrackVolume where
  volume : F32
deriving DecidableEq

/-- Payload-faithful counterpart of `AudioError::InvalidVolume(f32)`. -/
inductive VolumeError where
  | invalidVolume (v : F32)
deriving DecidableEq

/-- Mirror of `Track::set_volume_percent` (`src/engine/track.rs:118-125`)
over IEEE comparisons: `volume = percent / 100.0`; error when
`volume < 0.0 || volume > 1.0` (both comparisons false for NaN), in
which case the stored volume is unchanged; otherwise the fraction is
stored. -/
def set_volume_percent (t : TrackVolume) (percent : F32) :
    Except VolumeError Unit × TrackVolume :=
  let volume := percent.div100
  if volume.lt (.finite 0) || F32.lt (.finite 1) volume then
    (.error (.invalidVolume volume), t)
  else
    (.ok (), { volume := volume })

end FloatModel

/-! ## Concrete states used by counterexamples and witnesses -/

/-- Unwrap an `Ok` result, keeping the previous state on error (the
states below only ever take the `Ok` branch, as the accompanying
theorems prove). -/
def stepOk (r : Except AudioError Timeline) (fallback : Timeline) : Timeline :=
  match r with
  | .ok tl => tl
  | .error _ => fallback

/-- One fresh track on a fresh timeline. -/
def tlOne : Timeline := ((Timeline.new 44100).new_track).1

/-- Two fresh tracks on a fresh timeline. -/
def tlTwo : Timeline := (tlOne.new_track).1

/-- Two tracks, track 1 soloed (track 2 therefore muted). -/
def tlSolo1 : Timeline := stepOk (tlTwo.solo 1) tlTwo

/-- Two tracks, track 1 soloed, track 2 unmuted afterwards. -/
def tlSoloUnmuted : Timeline := stepOk (tlSolo1.unmute 2) tlSolo1

/-- One track, muted. -/
def tlMuted : Timeline := stepOk (tlOne.mute 1) tlOne

/-- One track, muted and then soloed: both flags set. -/
def tlMutedSoloed : Timeline := stepOk (tlMuted.solo 1) tlMuted

/-- A pass-through resampler stand-in (never invoked in the equal-rate
scenarios below). -/
def ridOk : Clip.ResampleFn := fun s _ _ _ => .ok s

/-- A stereo clip of 2 frames (4 interleaved samples) at position 0. -/
def stereoPrev : Clip :=
  { data := [1/2, 1/2, 1/2, 1/2], channel := 2, start_time_in_samples := 0 }

/-- A track holding `stereoPrev`. -/
def trackStereo : Track := { Track.new 1 with clips := [stereoPrev] }

/-- A 1-sample mono 8-bit source at the timeline rate. -/
def srcMono : WavSource :=
  { spec := { sample_format := .int, bits_per_sample := 8, channels := 1,
              sample_rate := 44100 },
    samples := [0] }

/-- A 3-channel 16-bit source at the timeline rate. -/
def src3 : WavSource :=
  { spec := { sample_format := .int, bits_per_sample := 16, channels := 3,
              sample_rate := 44100 },
    samples := [0, 0, 0] }

/-- The stereo clip of the spec's mono-downmix scenario:
`[L0,R0,L1,R1] = [0.2, 0.4, 0.6, 0.8]` at position 0. -/
def c9_clip : Clip :=
  { data := [1/5, 2/5, 3/5, 4/5], channel := 2, start_time_in_samples := 0 }

/-- A track at volume 1 holding `c9_clip`. -/
def c9_track : Track := { Track.new 1 with clips := [c9_clip] }

/-- A timeline holding `c9_track`, playhead at 0. -/
def c9_timeline : Timeline :=
  { tracks := [c9_track], active_track_ids := {1}, sample_rate := 44100,
    playhead_position := 0 }

/-- The track produced by appending `srcMono` to a fresh track. -/
def c4_result : Track :=
  { Track.new 1 with clips := [{ data := [0], channel := 1, start_time_in_samples := 0 }] }

/-! ## Helper lemmas -/

theorem track_eq_of_id_eq {ts : List Track} (hnd : (ts.map Track.id).Nodup)
    {t1 t2 : Track} (h1 : t1 ∈ ts) (h2 : t2 ∈ ts) (h : t1.id = t2.id) :
    t1 = t2 :=
  List.inj_on_of_nodup_map hnd h1 h2 h

theorem mem_update_first_track {ts : List Track} {i : ℕ} {f : Track → Track}
    {x : Track} (hnd : (ts.map Track.id).Nodup) :
    x ∈ Timeline.update_first_track ts i f ↔
      (x ∈ ts ∧ x.id ≠ i) ∨ ∃ t ∈ ts, t.id = i ∧ x = f t := by
  induction ts with
  | nil => simp [Timeline.update_first_track]
  | cons t rest ih =>
    simp only [List.map_cons, List.nodup_cons, List.mem_map] at hnd
    obtain ⟨hni, hnd2⟩ := hnd
    by_cases hti : t.id = i
    · have hbeq : (t.id == i) = true := by simpa using hti
      simp only [Timeline.update_first_track, hbeq, if_true, List.mem_cons]
      constructor
      · rintro (rfl | hx)
        · exact .inr ⟨t, .inl rfl, hti, rfl⟩
        · refine .inl ⟨.inr hx, ?_⟩
          intro hxi
          exact hni ⟨x, hx, by rw [hxi, hti]⟩
      · rintro (⟨hx, hne⟩ | ⟨u, hu, hui, rfl⟩)
        · rcases hx with rfl | hx2
          · exact absurd hti hne
          · exact .inr hx2
        · rcases hu with rfl | hu2
          · exact .inl rfl
          · exact absurd hui (by intro hc; exact hni ⟨u, hu2, by rw [hc, hti]⟩)
    · have hbeq : (t.id == i) = false := by simpa using hti
      simp only [Timeline.update_first_track, hbeq, Bool.false_eq_true, if_false,
        List.mem_cons]
      rw [ih hnd2]
      constructor
      · rintro (rfl | ⟨hx, hne⟩ | ⟨u, hu, hui, rfl⟩)
        · exact .inl ⟨.inl rfl, hti⟩
        · exact .inl ⟨.inr hx, hne⟩
        · exact .inr ⟨u, .inr hu, hui, rfl⟩
      · rintro (⟨hx, hne⟩ | ⟨u, hu, hui, rfl⟩)
        · rcases hx with rfl | hx2
          · exact .inl rfl
          · exact .inr (.inl ⟨hx2, hne⟩)
        · rcases hu with rfl | hu2
          · exact absurd hui hti
          · exact .inr (.inr ⟨u, hu2, hui, rfl⟩)

theorem exists_mem_update_first {ts : List Track} {i : ℕ} {f : Track → Track}
    (hnd : (ts.map Track.id).Nodup) {Q : Track → Prop} :
    (∃ x ∈ Timeline.update_first_track ts i f, Q x) ↔
      (∃ x ∈ ts, x.id ≠ i ∧ Q x) ∨ ∃ t ∈ ts, t.id = i ∧ Q (f t) := by
  constructor
  · rintro ⟨x, hx, hQ⟩
    rcases (mem_update_first_track hnd).1 hx with ⟨hm, hne⟩ | ⟨t, ht, hti, rfl⟩
    · exact .inl ⟨x, hm, hne, hQ⟩
    · exact .inr ⟨t, ht, hti, hQ⟩
  · rintro (⟨x, hm, hne, hQ⟩ | ⟨t, ht, hti, hQ⟩)
    · exact ⟨x, (mem_update_first_track hnd).2 (.inl ⟨hm, hne⟩), hQ⟩
    · exact ⟨f t, (mem_update_first_track hnd).2 (.inr ⟨t, ht, hti, rfl⟩), hQ⟩

theorem map_update_first {α : Type} {ts : List Track} {i : ℕ} {f : Track → Track}
    {g : Track → α} (hg : ∀ t ∈ ts, t.id = i → g (f t) = g t) :
    (Timeline.update_first_track ts i f).map g = ts.map g := by
  induction ts with
  | nil => rfl
  | cons t rest ih =>
    by_cases hti : t.id = i
    · have hbeq : (t.id == i) = true := by simpa using hti
      simp [Timeline.update_first_track, hbeq, hg t (List.mem_cons_self t rest) hti]
    · have hbeq : (t.id == i) = false := by simpa using hti
      simp [Timeline.update_first_track, hbeq,
        ih (fun u hu hui => hg u (List.mem_cons_of_mem t hu) hui)]

theorem find?_eq_some_of_unique {ts : List Track} {p : Track → Bool} {s : Track}
    (huniq : ∀ t1 ∈ ts, ∀ t2 ∈ ts, p t1 = true → p t2 = true → t1 = t2)
    (hs : s ∈ ts) (hps : p s = true) : ts.find? p = some s := by
  induction ts with
  | nil => cases hs
  | cons t rest ih =>
    by_cases h : p t = true
    · rw [List.find?_cons_of_pos _ h]
      have : t = s :=
        huniq t (List.mem_cons_self t rest) s hs h hps
      rw [this]
    · rw [List.find?_cons_of_neg _ h]
      rcases List.mem_cons.1 hs with rfl | hs2
      · exact absurd hps h
      · exact ih
          (fun t1 h1 t2 h2 => huniq t1 (List.mem_cons_of_mem t h1) t2 (List.mem_cons_of_mem t h2))
          hs2

theorem find?_update_first {ts : List Track} {i : ℕ} {f : Track → Track}
    {p : Track → Bool} (hnd : (ts.map Track.id).Nodup)
    (hp : ∀ t ∈ ts, t.id = i → p (f t) = p t) :
    (Timeline.update_first_track ts i f).find? p =
      (ts.find? p).map (fun s => if s.id = i then f s else s) := by
  induction ts with
  | nil => rfl
  | cons t rest ih =>
    simp only [List.map_cons, List.nodup_cons, List.mem_map] at hnd
    obtain ⟨hni, hnd2⟩ := hnd
    by_cases hti : t.id = i
    · have hbeq : (t.id == i) = true := by simpa using hti
      simp only [Timeline.update_first_track, hbeq, if_true]
      by_cases hpt : p t = true
      · rw [List.find?_cons_of_pos _ (by rw [hp t (List.mem_cons_self t rest) hti]; exact hpt),
          List.find?_cons_of_pos _ hpt]
        simp [hti]
      · rw [List.find?_cons_of_neg _ (by rw [hp t (List.mem_cons_self t rest) hti]; exact hpt),
          List.find?_cons_of_neg _ hpt]
        cases hr : rest.find? p with
        | none => rfl
        | some s =>
          have hsne : s.id ≠ i := by
            intro hc
            exact hni ⟨s, List.mem_of_find?_eq_some hr, by rw [hc, hti]⟩
          simp [hsne]
    · have hbeq : (t.id == i) = false := by simpa using hti
      simp only [Timeline.update_first_track, hbeq, Bool.false_eq_true, if_false]
      by_cases hpt : p t = true
      · rw [List.find?_cons_of_pos _ hpt, List.find?_cons_of_pos _ hpt]
        simp [hti]
      · rw [List.find?_cons_of_neg _ hpt, List.find?_cons_of_neg _ hpt]
        exact ih hnd2 (fun u hu hui => hp u (List.mem_cons_of_mem t hu) hui)

theorem mem_unmutedIds {ts : List Track} {j : ℕ} :
    j ∈ unmutedIds ts ↔ ∃ t ∈ ts, t.id = j ∧ t.is_muted = false := by
  simp only [unmutedIds, List.mem_toFinset, List.mem_map, List.mem_filter]
  constructor
  · rintro ⟨t, ⟨ht, hm⟩, hid⟩
    exact ⟨t, ht, hid, by simpa using hm⟩
  · rintro ⟨t, ht, hid, hm⟩
    exact ⟨t, ⟨ht, by simp [hm]⟩, hid⟩

theorem mem_soloedIds {ts : List Track} {j : ℕ} :
    j ∈ soloedIds ts ↔ ∃ t ∈ ts, t.id = j ∧ t.is_soloed = true := by
  simp only [soloedIds, List.mem_toFinset, List.mem_map, List.mem_filter]
  constructor
  · rintro ⟨t, ⟨ht, hm⟩, hid⟩
    exact ⟨t, ht, hid, hm⟩
  · rintro ⟨t, ht, hid, hm⟩
    exact ⟨t, ⟨ht, hm⟩, hid⟩

theorem mem_othersUnmutedIds {ts : List Track} {sid j : ℕ} :
    j ∈ othersUnmutedIds ts sid ↔
      ∃ t ∈ ts, t.id = j ∧ t.id ≠ sid ∧ t.is_muted = false := by
  simp only [othersUnmutedIds, List.mem_toFinset, List.mem_map, List.mem_filter,
    Bool.and_eq_true, Bool.not_eq_true']
  constructor
  · rintro ⟨t, ⟨ht, hne, hm⟩, hid⟩
    exact ⟨t, ht, hid, by simpa using hne, hm⟩
  · rintro ⟨t, ht, hid, hne, hm⟩
    exact ⟨t, ⟨ht, by simpa using hne, hm⟩, hid⟩

theorem nodup_ids_of_sorted {ts : List Track} (h : IdsSorted ts) :
    (ts.map Track.id).Nodup :=
  h.imp (fun hlt => Nat.ne_of_lt hlt)

theorem get_track_id {tl : Timeline} {i : ℕ} {track : Track}
    (h : tl.get_track i = some track) : track ∈ tl.tracks ∧ track.id = i := by
  refine ⟨List.mem_of_find?_eq_some h, ?_⟩
  have := List.find?_some h
  simpa using this

theorem from_source_ok_shape {r : Clip.ResampleFn} {src : WavSource}
    {st rate : ℕ} {clip : Clip}
    (h : Clip.from_source r src st rate = .ok clip) :
    clip.start_time_in_samples = st ∧ clip.channel = src.spec.channels := by
  unfold Clip.from_source at h
  split at h
  · simp at h
  · split at h
    · simp at h
    · simp only [Except.ok.injEq] at h
      subst h
      exact ⟨rfl, rfl⟩

/-! ## Render-path lemmas -/

theorem write_to_frame_length (b : List ℚ) (fi ch : ℕ) (s : ℚ) (oc : ℕ) :
    (Clip.write_to_frame b fi ch s oc).length = b.length := by
  unfold Clip.write_to_frame
  dsimp only
  split <;> simp

theorem foldl_length_invariant {α : Type} (g : List ℚ → α → List ℚ)
    (hg : ∀ b a, (g b a).length = b.length) :
    ∀ (l : List α) (b : List ℚ), (l.foldl g b).length = b.length := by
  intro l
  induction l with
  | nil => intro b; rfl
  | cons a l ih =>
    intro b
    rw [List.foldl_cons, ih, hg]

theorem process_sample_length (c : Clip) (b : List ℚ) (v : ℚ) (oc ph fi : ℕ) :
    (c.process_sample b v oc ph fi).length = b.length := by
  unfold Clip.process_sample
  dsimp only
  repeat' split
  all_goals
    simp only [write_to_frame_length,
      foldl_length_invariant _ (fun bb a => write_to_frame_length bb fi a _ oc)]

theorem process_frame_length (tl : Timeline) (b : List ℚ) (oc fi : ℕ) :
    (Timeline.process_frame tl b oc fi).length = b.length := by
  unfold Timeline.process_frame
  dsimp only
  exact foldl_length_invariant _
    (fun (bb : List ℚ) (cv : Clip × ℚ) =>
      process_sample_length cv.1 bb cv.2 oc tl.playhead_position fi) _ _

theorem process_loop_spec :
    ∀ (k : ℕ) (tl : Timeline) (b : List ℚ) (oc fi : ℕ),
      (Timeline.process_loop tl b oc fi k).1 =
        { tl with playhead_position := tl.playhead_position + k } ∧
      (Timeline.process_loop tl b oc fi k).2.length = b.length := by
  intro k
  induction k with
  | zero => intro tl b oc fi; exact ⟨rfl, rfl⟩
  | succ n ih =>
    intro tl b oc fi
    unfold Timeline.process_loop
    dsimp only
    obtain ⟨ih1, ih2⟩ := ih { tl with playhead_position := tl.playhead_position + 1 }
      (Timeline.process_frame tl b oc fi) oc (fi + 1)
    constructor
    · rw [ih1]
      dsimp only
      congr 1
      omega
    · rw [ih2, process_frame_length]

theorem process_frame_silent {tl : Timeline} {b : List ℚ} {oc fi : ℕ}
    (h : ∀ t ∈ tl.tracks,
      t.find_clip_at_playhead_position tl.playhead_position = none) :
    Timeline.process_frame tl b oc fi = b := by
  unfold Timeline.process_frame
  dsimp only
  have hnil : (tl.tracks.filter (fun track =>
      match tl.tracks.find? (fun t => t.is_soloed) with
      | some s => track.id == s.id
      | none => !track.is_muted)).filterMap (fun track =>
        (track.find_clip_at_playhead_position tl.playhead_position).map
          (fun clip => (clip, track.volume))) = [] := by
    rw [List.filterMap_eq_nil_iff]
    intro t ht
    rw [h t (List.mem_of_mem_filter ht)]
    rfl
  rw [hnil]
  rfl

theorem process_loop_silent :
    ∀ (k : ℕ) (tl : Timeline) (b : List ℚ) (oc fi : ℕ),
      (∀ t ∈ tl.tracks, ∀ pos, tl.playhead_position ≤ pos →
        pos < tl.playhead_position + k →
        t.find_clip_at_playhead_position pos = none) →
      (Timeline.process_loop tl b oc fi k).2 = b := by
  intro k
  induction k with
  | zero => intro tl b oc fi _; rfl
  | succ n ih =>
    intro tl b oc fi h
    unfold Timeline.process_loop
    dsimp only
    have h1 : Timeline.process_frame tl b oc fi = b :=
      process_frame_silent
        (fun t ht => h t ht tl.playhead_position (le_refl _) (by omega))
    rw [h1]
    apply ih
    intro t ht pos hle hlt
    exact h t ht pos (by simp at hle; omega) (by simp at hlt; omega)

/-! ## Claim C5 -/

/-- C5 counterexample: rendering with an output channel count of 0 hits
the integer division `buffer.len() / samples_per_frame` with a zero
divisor, which panics in Rust (modelled as `none`) — `process` is not
total over all output channel counts. -/
theorem c5_counterexample_zero_channels :
    tlOne.process [0] 0 = none := rfl

/-- C5 amended: for every output channel count of at least 1 the render
entry point always succeeds, produces a buffer of the same length, and
when no track has an active clip at any playhead position the output is
all zeros (a track with no active clip contributes nothing). -/
theorem c5_amended_render_total_for_positive_channels :
    ∀ (tl : Timeline) (buffer : List ℚ) (c : ℕ), 1 ≤ c →
      ∃ tl2 out, tl.process buffer c = some (tl2, out) ∧
        out.length = buffer.length ∧
        ((∀ t ∈ tl.tracks, ∀ pos, t.find_clip_at_playhead_position pos = none) →
          out = List.replicate buffer.length 0) := by
  intro tl buffer c hc
  have hc0 : ¬ c = 0 := by omega
  refine ⟨(Timeline.process_loop tl (List.replicate buffer.length 0) c 0
      (buffer.length / c)).1,
    (Timeline.process_loop tl (List.replicate buffer.length 0) c 0
      (buffer.length / c)).2, ?_, ?_, ?_⟩
  · unfold Timeline.process
    rw [if_neg hc0]
  · rw [(process_loop_spec _ _ _ _ _).2, List.length_replicate]
  · intro hsil
    exact process_loop_silent _ _ _ _ _ (fun t ht pos hle hlt => hsil t ht pos)

/-- Witness for `c5_amended_render_total_for_positive_channels` at a
concrete clipless timeline, buffer `[5]`, one output channel. -/
theorem c5_amended_witness :
    ∃ tl2 out, tlOne.process [5] 1 = some (tl2, out) ∧
      out.length = ([5] : List ℚ).length ∧
      ((∀ t ∈ tlOne.tracks, ∀ pos, t.find_clip_at_playhead_position pos = none) →
        out = List.replicate ([5] : List ℚ).length 0) :=
  c5_amended_render_total_for_positive_channels tlOne [5] 1 (by decide)

/-! ## Claim C6 -/

/-- C6: for every `n ≥ 0` and channel count `c ≥ 1`, rendering a buffer
of exactly `n*c` samples succeeds, advances the playhead by exactly `n`
frames (changing nothing else in the timeline), and produces `n*c`
samples computed from a zero-initialised buffer — the result does not
depend on the previous buffer contents. -/
theorem c6_process_advances_playhead_and_zero_initialises :
    ∀ (tl : Timeline) (n c : ℕ) (buffer : List ℚ), 1 ≤ c →
      buffer.length = n * c →
      ∃ tl2 out, tl.process buffer c = some (tl2, out) ∧
        tl2 = { tl with playhead_position := tl.playhead_position + n } ∧
        out.length = n * c ∧
        tl.process buffer c = tl.process (List.replicate (n * c) 0) c := by
  intro tl n c buffer hc hlen
  have hc0 : ¬ c = 0 := by omega
  have hnf : buffer.length / c = n := by
    rw [hlen]
    exact Nat.mul_div_cancel n (by omega)
  refine ⟨(Timeline.process_loop tl (List.replicate buffer.length 0) c 0 n).1,
    (Timeline.process_loop tl (List.replicate buffer.length 0) c 0 n).2,
    ?_, ?_, ?_, ?_⟩
  · unfold Timeline.process
    rw [if_neg hc0]
    dsimp only
    rw [hnf]
  · exact (process_loop_spec n tl _ c 0).1
  · rw [(process_loop_spec n tl _ c 0).2, List.length_replicate, hlen]
  · unfold Timeline.process
    rw [if_neg hc0, if_neg hc0]
    simp only [List.length_replicate, hlen]

/-- Witness for `c6_process_advances_playhead_and_zero_initialises`:
one frame of a stereo buffer on a concrete timeline. -/
theorem c6_witness :
    ∃ tl2 out, tlOne.process [5, 7] 2 = some (tl2, out) ∧
      tl2 = { tlOne with playhead_position := tlOne.playhead_position + 1 } ∧
      out.length = 1 * 2 ∧
      tlOne.process [5, 7] 2 = tlOne.process (List.replicate (1 * 2) 0) 2 :=
  c6_process_advances_playhead_and_zero_initialises tlOne 1 2 [5, 7]
    (by decide) (by decide)

/-! ## Counterexamples to the mute/solo claims -/

/-- C1 counterexample: the state reached by `new`, `new_track`,
`new_track`, `solo 1`, `unmute 2` is reachable, track 1 is soloed, yet
the cached audible set is `{1, 2}` rather than the soloed set `{1}` —
`unmute` inserts a track into the cache while another track is soloed
(and `new_track` behaves likewise). -/
theorem c1_counterexample_cache_diverges :
    Reachable tlSoloUnmuted ∧ ¬ ClaimedAudibleInv tlSoloUnmuted := by
  constructor
  · have h0 : Reachable (Timeline.new 44100) := Reachable.new 44100
    have h1 : Reachable tlOne := Reachable.new_track h0
    have h2 : Reachable tlTwo := Reachable.new_track h1
    have h3 : Reachable tlSolo1 := @Reachable.solo tlTwo tlSolo1 1 h2 (by decide)
    exact @Reachable.unmute tlSolo1 tlSoloUnmuted 2 h3 (by decide)
  · unfold ClaimedAudibleInv
    decide

/-- C2 counterexample: in the reachable state where track 1 is already
soloed and track 2 has been unmuted, `solo 1` returns `Ok` as a no-op,
leaving track 2 unmuted — after `solo(t)` returns `Ok` it is not the
case that every other track is muted. -/
theorem c2_counterexample_solo_noop_leaves_others_unmuted :
    tlSoloUnmuted.solo 1 = .ok tlSoloUnmuted ∧
    (tlSoloUnmuted.get_track 1).map Track.is_soloed = some true ∧
    (tlSoloUnmuted.get_track 2).map Track.is_muted = some false := by
  decide

/-- C3 counterexample: in the reachable state where track 1 is both
muted and soloed (mute 1 then solo 1), `mute 1` returns `Ok` as a no-op
and the track's soloed flag remains `true` — mute does not always clear
solo. -/
theorem c3_counterexample_mute_noop_keeps_solo :
    tlMutedSoloed.mute 1 = .ok tlMutedSoloed ∧
    (tlMutedSoloed.get_track 1).map Track.is_muted = some true ∧
    (tlMutedSoloed.get_track 1).map Track.is_soloed = some true := by
  decide

/-! ## Claim C8 -/

/-- C8: for every supported integer bit depth (8, 16, 24, 32) the
decoder computes `clamp(v * (1/max), -1, 1)` with scale constants
`1/127`, `1/32767`, `1/8388607`, `1/2147483647`; the maximum positive
raw value decodes to exactly `1`, the symmetric minimum to exactly `-1`
after clamping, and `0` to `0`. -/
theorem c8_integer_decode_scales :
    (∀ v : ℚ, Utils.convert_sample_to_f64 v .i8 = rclamp (v * (1 / 127)) (-1) 1) ∧
    (∀ v : ℚ, Utils.convert_sample_to_f64 v .i16 = rclamp (v * (1 / 32767)) (-1) 1) ∧
    (∀ v : ℚ, Utils.convert_sample_to_f64 v .i24 = rclamp (v * (1 / 8388607)) (-1) 1) ∧
    (∀ v : ℚ, Utils.convert_sample_to_f64 v .i32 = rclamp (v * (1 / 2147483647)) (-1) 1) ∧
    Utils.convert_sample_to_f64 127 .i8 = 1 ∧
    Utils.convert_sample_to_f64 (-128) .i8 = -1 ∧
    Utils.convert_sample_to_f64 0 .i8 = 0 ∧
    Utils.convert_sample_to_f64 32767 .i16 = 1 ∧
    Utils.convert_sample_to_f64 (-32768) .i16 = -1 ∧
    Utils.convert_sample_to_f64 0 .i16 = 0 ∧
    Utils.convert_sample_to_f64 8388607 .i24 = 1 ∧
    Utils.convert_sample_to_f64 (-8388608) .i24 = -1 ∧
    Utils.convert_sample_to_f64 0 .i24 = 0 ∧
    Utils.convert_sample_to_f64 2147483647 .i32 = 1 ∧
    Utils.convert_sample_to_f64 (-2147483648) .i32 = -1 ∧
    Utils.convert_sample_to_f64 0 .i32 = 0 := by
  refine ⟨fun v => rfl, fun v => rfl, fun v => rfl, fun v => rfl,
    ?_, ?_, ?_, ?_, ?_, ?_, ?_, ?_, ?_, ?_, ?_, ?_⟩ <;>
    norm_num [Utils.convert_sample_to_f64, rclamp, Scale.get_f64_scale]

/-! ## Claim C9 -/

/-- C9: a stereo clip `[0.2, 0.4, 0.6, 0.8]` at start 0 on a track with
volume 1, rendered to a mono output for 2 frames, yields exactly
`[0.6, 1.4]` — the unattenuated per-frame sum `left + right`.
(Exact-rational model of the `f64` pipeline.) -/
theorem c9_stereo_to_mono_unattenuated_sum :
    (c9_timeline.process [0, 0] 1).map (fun p => p.2) = some [3/5, 7/5] := by
  norm_num [c9_timeline, c9_track, c9_clip, Track.new, Track.default,
    Timeline.process, Timeline.process_loop, Timeline.process_frame,
    Track.find_clip_at_playhead_position, Clip.process_sample, Clip.write_to_frame,
    Clip.is_mono, Clip.is_stereo, Clip.end_time_in_samples, Clip.duration_in_samples,
    Clip.sample_count, List.find?, List.filterMap, List.filter, List.range,
    List.foldl, List.replicate]

/-! ## Claim C10 -/

/-- C10 counterexample: `set_volume_percent(NaN)` returns `Ok` and
stores NaN as the volume, even though `NaN/100 = NaN` does not fall in
`[0,1]` — the claim that `InvalidVolume` is returned exactly when
`p/100` falls outside `[0,1]` fails at `p = NaN`. -/
theorem c10_counterexample_nan_accepted :
    (FloatModel.set_volume_percent ⟨.finite 1⟩ .nan).1 = .ok () ∧
    (FloatModel.set_volume_percent ⟨.finite 1⟩ .nan).2.volume = .nan ∧
    FloatModel.F32.mem_unit_interval (FloatModel.F32.div100 .nan) = false := by
  decide

/-- C10 amended: `set_volume_percent(p)` succeeds exactly when `p/100`
lies in `[0,1]` or is NaN (IEEE comparisons with NaN are false, so NaN
is accepted); on success the stored volume is `p/100`, on failure the
stored volume is unchanged. -/
theorem c10_amended_volume_guard :
    ∀ (t : FloatModel.TrackVolume) (p : FloatModel.F32),
      ((FloatModel.set_volume_percent t p).1 = .ok () ↔
        (FloatModel.F32.mem_unit_interval p.div100 = true ∨ p.div100 = .nan)) ∧
      (FloatModel.set_volume_percent t p).2 =
        (if p.div100.lt (.finite 0) || FloatModel.F32.lt (.finite 1) p.div100 then t
         else ⟨p.div100⟩) := by
  intro t p
  rcases p with _ | _ | _ | q
  · simp [FloatModel.set_volume_percent, FloatModel.F32.div100, FloatModel.F32.lt,
      FloatModel.F32.mem_unit_interval]
  · simp [FloatModel.set_volume_percent, FloatModel.F32.div100, FloatModel.F32.lt,
      FloatModel.F32.mem_unit_interval]
  · simp [FloatModel.set_volume_percent, FloatModel.F32.div100, FloatModel.F32.lt,
      FloatModel.F32.mem_unit_interval]
  · simp only [FloatModel.set_volume_percent, FloatModel.F32.div100, FloatModel.F32.lt,
      FloatModel.F32.mem_unit_interval, Bool.or_eq_true, decide_eq_true_eq]
    by_cases h0 : q / 100 < 0
    · have hn : ¬ (0 : ℚ) ≤ q / 100 := not_le.2 h0
      simp [h0, hn]
    · by_cases h1 : 1 < q / 100
      · have hn : ¬ q / 100 ≤ (1 : ℚ) := not_le.2 h1
        simp [h0, h1, hn]
      · have h0n : (0 : ℚ) ≤ q / 100 := le_of_not_lt h0
        have h1n : q / 100 ≤ (1 : ℚ) := le_of_not_lt h1
        simp [h0, h1, h0n, h1n]

/-! ## Claim C4 -/

/-- C4 counterexample: appending after a stereo clip of 2 frames
(4 interleaved samples, span `[0, 2)`) places the new clip at start 5
(`0 + sample_count 4 + 1`), not at the previous end plus one frame,
which would be 3. -/
theorem c4_counterexample_stereo_placement :
    (trackStereo.add_clip ridOk srcMono 44100).map
        (fun t2 => t2.clips.map Clip.start_time_in_samples) = .ok [0, 5] ∧
    stereoPrev.end_time_in_samples + 1 = 3 ∧ (5 : ℕ) ≠ 3 := by
  refine ⟨?_, by decide, by decide⟩
  norm_num [trackStereo, stereoPrev, srcMono, ridOk, Track.new, Track.default,
    Track.add_clip, Clip.from_source, Clip.decode_samples_to_f64,
    Clip.read_samples_as_f64, Utils.convert_samples_to_f64,
    Utils.convert_sample_to_f64, rclamp, Scale.get_f64_scale, Clip.sample_count,
    Except.map]

/-- C4 amended: every successfully appended clip is placed at
`previous start + previous sample_count + 1` where `sample_count` is the
interleaved length (or at 0 on an empty track); this is strictly after
the previous clip's end, and it equals `previous end + 1 frame` exactly
when the previous clip is mono. -/
theorem c4_amended_append_placement :
    ∀ (t : Track) (r : Clip.ResampleFn) (src : WavSource) (rate : ℕ) (t2 : Track),
      t.add_clip r src rate = .ok t2 →
      ∃ clip,
        t2.clips = t.clips ++ [clip] ∧
        clip.start_time_in_samples =
          (match t.clips.getLast? with
           | some c => c.start_time_in_samples + c.sample_count + 1
           | none => 0) ∧
        (∀ c, t.clips.getLast? = some c →
          c.end_time_in_samples < clip.start_time_in_samples) ∧
        (∀ c, t.clips.getLast? = some c → c.channel = 1 →
          clip.start_time_in_samples = c.end_time_in_samples + 1) := by
  intro t r src rate t2 h
  unfold Track.add_clip at h
  dsimp only at h
  split at h
  · simp at h
  · rename_i clip hfs
    simp only [Except.ok.injEq] at h
    subst h
    obtain ⟨hst, _⟩ := from_source_ok_shape hfs
    refine ⟨clip, rfl, hst, ?_, ?_⟩
    · intro c hc
      rw [hst, hc]
      dsimp only
      have hd : c.duration_in_samples ≤ c.sample_count :=
        Nat.div_le_self c.sample_count c.channel
      unfold Clip.end_time_in_samples
      omega
    · intro c hc hch
      rw [hst, hc]
      dsimp only
      unfold Clip.end_time_in_samples Clip.duration_in_samples
      rw [hch, Nat.div_one]

/-- Witness for `c4_amended_append_placement`: appending the mono
source to a fresh (empty) track places the clip at start 0 and
produces `c4_result`. -/
theorem c4_amended_append_placement_witness :
    ∃ clip,
      c4_result.clips = (Track.new 1).clips ++ [clip] ∧
      clip.start_time_in_samples =
        (match (Track.new 1).clips.getLast? with
         | some c => c.start_time_in_samples + c.sample_count + 1
         | none => 0) ∧
      (∀ c, (Track.new 1).clips.getLast? = some c →
        c.end_time_in_samples < clip.start_time_in_samples) ∧
      (∀ c, (Track.new 1).clips.getLast? = some c → c.channel = 1 →
        clip.start_time_in_samples = c.end_time_in_samples + 1) :=
  c4_amended_append_placement (Track.new 1) ridOk srcMono 44100 c4_result (by
    norm_num [Track.add_clip, Track.new, Track.default, Clip.from_source,
      Clip.decode_samples_to_f64, Clip.read_samples_as_f64,
      Utils.convert_samples_to_f64, Utils.convert_sample_to_f64, rclamp,
      Scale.get_f64_scale, srcMono, ridOk, c4_result])

/-! ## Claim C7 -/

/-- C7 counterexample: a 3-channel 16-bit integer source at the
timeline rate is decoded successfully into a clip with channel count 3;
no error is produced for a channel count outside {1, 2}. -/
theorem c7_counterexample_three_channels_accepted :
    Clip.from_source ridOk src3 0 44100 =
      .ok { data := [0, 0, 0], channel := 3, start_time_in_samples := 0 } ∧
    src3.spec.channels = 3 := by
  refine ⟨?_, by decide⟩
  norm_num [src3, ridOk, Clip.from_source, Clip.decode_samples_to_f64,
    Clip.read_samples_as_f64, Utils.convert_samples_to_f64,
    Utils.convert_sample_to_f64, rclamp, Scale.get_f64_scale]

/-- C7 amended: clip construction validates only the sample format and
bit depth — decoding succeeds exactly for integer depths 8/16/24/32 and
float depth 32, independently of the channel count; at matching sample
rates construction stores the source's channel count verbatim; and a
clip whose channel count is neither 1 nor 2 contributes nothing when
rendered. -/
theorem c7_amended_no_channel_validation :
    (∀ src : WavSource,
      (Clip.decode_samples_to_f64 src).isOk = true ↔
        ((src.spec.sample_format = .int ∧
            src.spec.bits_per_sample ∈ ([8, 16, 24, 32] : List ℕ)) ∨
          (src.spec.sample_format = .float ∧ src.spec.bits_per_sample = 32))) ∧
    (∀ (src : WavSource) (st rate : ℕ) (r : Clip.ResampleFn) (samples : List ℚ),
      Clip.decode_samples_to_f64 src = .ok samples →
      src.spec.sample_rate = rate →
      Clip.from_source r src st rate =
        .ok { data := samples, channel := src.spec.channels,
              start_time_in_samples := st }) ∧
    (∀ (c : Clip) (b : List ℚ) (v : ℚ) (oc ph fi : ℕ),
      c.channel ≠ 1 → c.channel ≠ 2 → c.process_sample b v oc ph fi = b) := by
  refine ⟨?_, ?_, ?_⟩
  · intro src
    rcases src with ⟨⟨fmt, bits, ch, rate⟩, samples⟩
    cases fmt <;> unfold Clip.decode_samples_to_f64 <;> dsimp only <;>
      split <;> simp_all [Except.isOk, Except.toBool]
  · intro src st rate r samples hd hrate
    unfold Clip.from_source
    rw [hd, hrate]
    simp
  · intro c b v oc ph fi h1 h2
    have hm : c.is_mono = false := by
      simp [Clip.is_mono, h1]
    have hs : c.is_stereo = false := by
      simp [Clip.is_stereo, h2]
    simp [Clip.process_sample, hm, hs]

/-- Witness for `c7_amended_no_channel_validation`: the 3-channel
16-bit source is accepted by the decoder, constructed verbatim at the
matching rate, and a 3-channel clip contributes nothing to a buffer. -/
theorem c7_amended_witness :
    ((Clip.decode_samples_to_f64 src3).isOk = true ↔
      ((src3.spec.sample_format = .int ∧
          src3.spec.bits_per_sample ∈ ([8, 16, 24, 32] : List ℕ)) ∨
        (src3.spec.sample_format = .float ∧ src3.spec.bits_per_sample = 32))) ∧
    Clip.from_source ridOk src3 0 44100 =
      .ok { data := [0, 0, 0], channel := src3.spec.channels,
            start_time_in_samples := 0 } ∧
    Clip.process_sample { data := [0, 0, 0], channel := 3, start_time_in_samples := 0 }
      [0, 0] 1 2 0 0 = [0, 0] :=
  ⟨c7_amended_no_channel_validation.1 src3,
   c7_amended_no_channel_validation.2.1 src3 0 44100 ridOk [0, 0, 0]
     (by norm_num [src3, Clip.decode_samples_to_f64, Clip.read_samples_as_f64,
       Utils.convert_samples_to_f64, Utils.convert_sample_to_f64, rclamp,
       Scale.get_f64_scale]) rfl,
   c7_amended_no_channel_validation.2.2
     { data := [0, 0, 0], channel := 3, start_time_in_samples := 0 }
     [0, 0] 1 2 0 0 (by decide) (by decide)⟩


/-! ## Ordering and solo-update lemmas -/

theorem mem_of_getLast?_eq_some {α : Type} :
    ∀ {l : List α} {m : α}, l.getLast? = some m → m ∈ l := by
  intro l
  induction l with
  | nil => intro m h; cases h
  | cons x rest ih =>
    intro m h
    cases rest with
    | nil =>
      simp only [List.getLast?_singleton, Option.some.injEq] at h
      simp [h]
    | cons y r2 =>
      rw [List.getLast?_cons_cons] at h
      exact List.mem_cons_of_mem x (ih h)

theorem le_getLast_of_sorted :
    ∀ {l : List ℕ}, l.Pairwise (· ≤ ·) → ∀ {m : ℕ}, l.getLast? = some m →
      ∀ {a : ℕ}, a ∈ l → a ≤ m := by
  intro l
  induction l with
  | nil => intro _ m h; cases h
  | cons x rest ih =>
    intro hs m hl a ha
    cases rest with
    | nil =>
      simp only [List.getLast?_singleton, Option.some.injEq] at hl
      rcases List.mem_singleton.1 ha with rfl
      omega
    | cons y r2 =>
      rw [List.getLast?_cons_cons] at hl
      rcases List.mem_cons.1 ha with rfl | h2
      · exact (List.pairwise_cons.1 hs).1 m (mem_of_getLast?_eq_some hl)
      · exact ih (List.pairwise_cons.1 hs).2 hl h2

theorem find_id_update_first {ts : List Track} {i : ℕ} {f : Track → Track}
    {track : Track} (hnd : (ts.map Track.id).Nodup)
    (hg : ts.find? (fun t => t.id == i) = some track)
    (hfid : (f track).id = track.id) :
    (Timeline.update_first_track ts i f).find? (fun t => t.id == i) =
      some (f track) := by
  have htm : track ∈ ts := List.mem_of_find?_eq_some hg
  have hti : track.id = i := by simpa using List.find?_some hg
  have hmap : (Timeline.update_first_track ts i f).map Track.id = ts.map Track.id :=
    map_update_first (fun t ht hid => by
      have heq : t = track := track_eq_of_id_eq hnd ht htm (hid.trans hti.symm)
      rw [heq, hfid])
  have hndU : ((Timeline.update_first_track ts i f).map Track.id).Nodup := by
    rw [hmap]; exact hnd
  apply find?_eq_some_of_unique
  · intro t1 h1 t2 h2 hp1 hp2
    refine track_eq_of_id_eq hndU h1 h2 ?_
    have e1 : t1.id = i := by simpa using hp1
    have e2 : t2.id = i := by simpa using hp2
    rw [e1, e2]
  · exact (mem_update_first_track hnd).2 (.inr ⟨track, htm, hti, rfl⟩)
  · simp [hfid, hti]

theorem solo_tracks_map_id {ts : List Track} {i : ℕ} :
    (Timeline.solo_tracks ts i).map Track.id = ts.map Track.id := by
  unfold Timeline.solo_tracks
  rw [List.map_map]
  have hcomp : (Track.id ∘ fun t =>
      if t.id == i then t else Track.mute (Track.unsolo t)) = Track.id := by
    funext t
    by_cases h : (t.id == i) = true <;>
      simp [Function.comp, h, Track.mute, Track.unsolo]
  rw [hcomp]
  exact map_update_first (fun t _ _ => rfl)

theorem solo_tracks_others {ts : List Track} {i : ℕ} {x : Track}
    (hx : x ∈ Timeline.solo_tracks ts i) (hne : x.id ≠ i) :
    x.is_soloed = false ∧ x.is_muted = true := by
  unfold Timeline.solo_tracks at hx
  rcases List.mem_map.1 hx with ⟨y, hy, hxy⟩
  by_cases h : (y.id == i) = true
  · rw [if_pos h] at hxy
    exact absurd (by rw [← hxy]; simpa using h) hne
  · rw [if_neg h] at hxy
    rw [← hxy]
    exact ⟨rfl, rfl⟩

theorem solo_tracks_get {ts : List Track} {i : ℕ} {track : Track}
    (hnd : (ts.map Track.id).Nodup)
    (hg : ts.find? (fun t => t.id == i) = some track) :
    (Timeline.solo_tracks ts i).find? (fun t => t.id == i) =
      some (Track.solo track) := by
  have htm : track ∈ ts := List.mem_of_find?_eq_some hg
  have hti : track.id = i := by simpa using List.find?_some hg
  have hndS : ((Timeline.solo_tracks ts i).map Track.id).Nodup := by
    rw [solo_tracks_map_id]; exact hnd
  apply find?_eq_some_of_unique
  · intro t1 h1 t2 h2 hp1 hp2
    refine track_eq_of_id_eq hndS h1 h2 ?_
    have e1 : t1.id = i := by simpa using hp1
    have e2 : t2.id = i := by simpa using hp2
    rw [e1, e2]
  · unfold Timeline.solo_tracks
    refine List.mem_map.2 ⟨Track.solo track,
      (mem_update_first_track hnd).2 (.inr ⟨track, htm, hti, rfl⟩), ?_⟩
    have hc : ((Track.solo track).id == i) = true := by simp [Track.solo, hti]
    rw [if_pos hc]
  · simp [Track.solo, hti]

theorem solo_tracks_soloed_eq {ts : List Track} {i : ℕ} {track x : Track}
    (hnd : (ts.map Track.id).Nodup)
    (hg : ts.find? (fun t => t.id == i) = some track)
    (hx : x ∈ Timeline.solo_tracks ts i) (hs : x.is_soloed = true) :
    x = Track.solo track := by
  have hti : track.id = i := by simpa using List.find?_some hg
  have hndS : ((Timeline.solo_tracks ts i).map Track.id).Nodup := by
    rw [solo_tracks_map_id]; exact hnd
  by_cases hne : x.id = i
  · have hfind := solo_tracks_get hnd hg
    have hmem2 : Track.solo track ∈ Timeline.solo_tracks ts i :=
      List.mem_of_find?_eq_some hfind
    refine track_eq_of_id_eq hndS hx hmem2 ?_
    rw [hne]
    simp [Track.solo, hti]
  · have := (solo_tracks_others hx hne).1
    rw [this] at hs
    cases hs

theorem unmutedIds_update {ts : List Track} {i : ℕ} {f : Track → Track}
    (hnd : (ts.map Track.id).Nodup)
    (hpres : ∀ t ∈ ts, t.id = i →
      (f t).id = t.id ∧ (f t).is_muted = t.is_muted) :
    unmutedIds (Timeline.update_first_track ts i f) = unmutedIds ts := by
  apply Finset.ext
  intro j
  rw [mem_unmutedIds, mem_unmutedIds, exists_mem_update_first hnd]
  constructor
  · rintro (⟨x, hx, _, hQ⟩ | ⟨t, ht, hti2, hq1, hq2⟩)
    · exact ⟨x, hx, hQ⟩
    · obtain ⟨hid, hmut⟩ := hpres t ht hti2
      exact ⟨t, ht, by rw [← hid]; exact hq1, by rw [← hmut]; exact hq2⟩
  · rintro ⟨x, hx, hq1, hq2⟩
    by_cases hxi : x.id = i
    · obtain ⟨hid, hmut⟩ := hpres x hx hxi
      exact .inr ⟨x, hx, hxi, by rw [hid]; exact hq1, by rw [hmut]; exact hq2⟩
    · exact .inl ⟨x, hx, hxi, hq1, hq2⟩

theorem othersUnmutedIds_update {ts : List Track} {i sid : ℕ} {f : Track → Track}
    (hnd : (ts.map Track.id).Nodup)
    (hpres : ∀ t ∈ ts, t.id = i →
      (f t).id = t.id ∧ (f t).is_muted = t.is_muted) :
    othersUnmutedIds (Timeline.update_first_track ts i f) sid =
      othersUnmutedIds ts sid := by
  apply Finset.ext
  intro j
  rw [mem_othersUnmutedIds, mem_othersUnmutedIds, exists_mem_update_first hnd]
  constructor
  · rintro (⟨x, hx, _, hQ⟩ | ⟨t, ht, hti2, hq1, hq2, hq3⟩)
    · exact ⟨x, hx, hQ⟩
    · obtain ⟨hid, hmut⟩ := hpres t ht hti2
      exact ⟨t, ht, by rw [← hid]; exact hq1, by rw [← hid]; exact hq2,
        by rw [← hmut]; exact hq3⟩
  · rintro ⟨x, hx, hq1, hq2, hq3⟩
    by_cases hxi : x.id = i
    · obtain ⟨hid, hmut⟩ := hpres x hx hxi
      exact .inr ⟨x, hx, hxi, by rw [hid]; exact hq1, by rw [hid]; exact hq2,
        by rw [hmut]; exact hq3⟩
    · exact .inl ⟨x, hx, hxi, hq1, hq2, hq3⟩


/-! ## Track projection lemmas -/

@[simp]
theorem Track.new_id (n : ℕ) : (Track.new n).id = n := rfl

@[simp]
theorem Track.new_muted (n : ℕ) : (Track.new n).is_muted = false := rfl

@[simp]
theorem Track.new_soloed (n : ℕ) : (Track.new n).is_soloed = false := rfl

@[simp]
theorem Track.mute_id (t : Track) : (Track.mute t).id = t.id := rfl

@[simp]
theorem Track.mute_muted (t : Track) : (Track.mute t).is_muted = true := rfl

@[simp]
theorem Track.mute_soloed (t : Track) : (Track.mute t).is_soloed = t.is_soloed := rfl

@[simp]
theorem Track.unmute_id (t : Track) : (Track.unmute t).id = t.id := rfl

@[simp]
theorem Track.unmute_muted (t : Track) : (Track.unmute t).is_muted = false := rfl

@[simp]
theorem Track.unmute_soloed (t : Track) : (Track.unmute t).is_soloed = t.is_soloed := rfl

@[simp]
theorem Track.solo_id (t : Track) : (Track.solo t).id = t.id := rfl

@[simp]
theorem Track.solo_muted (t : Track) : (Track.solo t).is_muted = t.is_muted := rfl

@[simp]
theorem Track.solo_soloed (t : Track) : (Track.solo t).is_soloed = true := rfl

@[simp]
theorem Track.unsolo_id (t : Track) : (Track.unsolo t).id = t.id := rfl

@[simp]
theorem Track.unsolo_muted (t : Track) : (Track.unsolo t).is_muted = t.is_muted := rfl

@[simp]
theorem Track.unsolo_soloed (t : Track) : (Track.unsolo t).is_soloed = false := rfl

/-! ## Invariant preservation -/

theorem inv_new (r : ℕ) : Inv (Timeline.new r) := by
  refine ⟨?_, ?_, ?_, ?_⟩
  · unfold IdsSorted Timeline.new
    simp
  · intro t1 h1 t2 h2 hs1 hs2
    cases h1
  · intro s hfs
    exact Option.noConfusion hfs
  · intro _
    rfl

theorem inv_new_track {tl : Timeline} (h : Inv tl) : Inv (tl.new_track).1 := by
  obtain ⟨hsort, hamo, hciS, hciN⟩ := h
  unfold Timeline.new_track
  dsimp only
  set nid : ℕ := (match tl.tracks.getLast? with
    | some track => track.id + 1
    | none => 1) with hnid
  have hfresh : ∀ t ∈ tl.tracks, t.id < nid := by
    intro t ht
    rw [hnid]
    cases hl : tl.tracks.getLast? with
    | none =>
      rw [List.getLast?_eq_none_iff] at hl
      rw [hl] at ht
      cases ht
    | some tr =>
      dsimp only
      have hgl : (tl.tracks.map Track.id).getLast? = some tr.id := by
        rw [List.getLast?_map, hl]
        rfl
      have hle : t.id ≤ tr.id :=
        le_getLast_of_sorted
          (List.Pairwise.imp (fun hlt => le_of_lt hlt) hsort) hgl
          (List.mem_map_of_mem Track.id ht)
      omega
  have hfindapp : (tl.tracks ++ [Track.new nid]).find? (fun t => t.is_soloed) =
      tl.tracks.find? (fun t => t.is_soloed) := by
    rw [List.find?_append]
    cases hfs : tl.tracks.find? (fun t => t.is_soloed) with
    | none => simp [List.find?]
    | some s => rfl
  refine ⟨?_, ?_, ?_, ?_⟩
  · unfold IdsSorted
    rw [List.map_append, List.pairwise_append]
    refine ⟨hsort, by simp, ?_⟩
    intro a ha b hb
    simp only [List.map_cons, List.map_nil, List.mem_singleton, Track.new_id] at hb
    subst hb
    rcases List.mem_map.1 ha with ⟨t, ht, rfl⟩
    exact hfresh t ht
  · intro t1 h1 t2 h2 hs1 hs2
    rcases List.mem_append.1 h1 with h1a | h1b
    · rcases List.mem_append.1 h2 with h2a | h2b
      · exact hamo t1 h1a t2 h2a hs1 hs2
      · rcases List.mem_singleton.1 h2b with rfl
        simp at hs2
    · rcases List.mem_singleton.1 h1b with rfl
      simp at hs1
  · intro s hfs2
    rw [hfindapp] at hfs2
    have hA := hciS s hfs2
    have hsm : s ∈ tl.tracks := List.mem_of_find?_eq_some hfs2
    have hsnid : s.id ≠ nid := by
      have := hfresh s hsm
      omega
    apply Finset.ext
    intro j
    simp only [Track.new_id]
    rw [Finset.mem_insert, hA, Finset.mem_insert, Finset.mem_insert,
      mem_othersUnmutedIds, mem_othersUnmutedIds]
    constructor
    · rintro (rfl | hjs | ⟨x, hx, hxj, hxs, hxm⟩)
      · refine .inr ⟨Track.new nid,
          List.mem_append.2 (.inr (List.mem_singleton.2 rfl)), rfl, ?_, rfl⟩
        simp only [Track.new_id]
        intro hc
        exact hsnid hc.symm
      · exact .inl hjs
      · exact .inr ⟨x, List.mem_append.2 (.inl hx), hxj, hxs, hxm⟩
    · rintro (hjs | ⟨x, hx, hxj, hxs, hxm⟩)
      · exact .inr (.inl hjs)
      · rcases List.mem_append.1 hx with hxa | hxb
        · exact .inr (.inr ⟨x, hxa, hxj, hxs, hxm⟩)
        · rcases List.mem_singleton.1 hxb with rfl
          exact .inl (by rw [← hxj]; rfl)
  · intro hn
    rw [hfindapp] at hn
    have hA := hciN hn
    apply Finset.ext
    intro j
    simp only [Track.new_id]
    rw [Finset.mem_insert, hA, mem_unmutedIds, mem_unmutedIds]
    constructor
    · rintro (rfl | ⟨x, hx, hxj, hxm⟩)
      · exact ⟨Track.new nid,
          List.mem_append.2 (.inr (List.mem_singleton.2 rfl)), rfl, rfl⟩
      · exact ⟨x, List.mem_append.2 (.inl hx), hxj, hxm⟩
    · rintro ⟨x, hx, hxj, hxm⟩
      rcases List.mem_append.1 hx with hxa | hxb
      · exact .inr ⟨x, hxa, hxj, hxm⟩
      · rcases List.mem_singleton.1 hxb with rfl
        exact .inl (by rw [← hxj]; rfl)

theorem inv_update_preserving {tl : Timeline} {i : ℕ} {f : Track → Track}
    (h : Inv tl)
    (hpres : ∀ t ∈ tl.tracks, t.id = i →
      (f t).id = t.id ∧ (f t).is_muted = t.is_muted ∧
        (f t).is_soloed = t.is_soloed) :
    Inv { tl with tracks := Timeline.update_first_track tl.tracks i f } := by
  obtain ⟨hsort, hamo, hciS, hciN⟩ := h
  have hnd := nodup_ids_of_sorted hsort
  have hfind : (Timeline.update_first_track tl.tracks i f).find?
        (fun t => t.is_soloed) =
      (tl.tracks.find? (fun t => t.is_soloed)).map
        (fun s => if s.id = i then f s else s) :=
    find?_update_first hnd (fun t ht hid => by rw [(hpres t ht hid).2.2])
  refine ⟨?_, ?_, ?_, ?_⟩
  · unfold IdsSorted
    dsimp only
    rw [map_update_first (fun t ht hid => (hpres t ht hid).1)]
    exact hsort
  · intro t1 h1 t2 h2 hs1 hs2
    dsimp only at h1 h2
    rcases (mem_update_first_track hnd).1 h1 with ⟨m1, _⟩ | ⟨u1, hu1, hui1, rfl⟩ <;>
      rcases (mem_update_first_track hnd).1 h2 with ⟨m2, _⟩ | ⟨u2, hu2, hui2, rfl⟩
    · exact hamo t1 m1 t2 m2 hs1 hs2
    · obtain ⟨hid2, _, hsol2⟩ := hpres u2 hu2 hui2
      rw [hid2]
      exact hamo t1 m1 u2 hu2 hs1 (by rw [← hsol2]; exact hs2)
    · obtain ⟨hid1, _, hsol1⟩ := hpres u1 hu1 hui1
      rw [hid1]
      exact hamo u1 hu1 t2 m2 (by rw [← hsol1]; exact hs1) hs2
    · obtain ⟨hid1, _, hsol1⟩ := hpres u1 hu1 hui1
      obtain ⟨hid2, _, hsol2⟩ := hpres u2 hu2 hui2
      rw [hid1, hid2]
      exact hamo u1 hu1 u2 hu2 (by rw [← hsol1]; exact hs1)
        (by rw [← hsol2]; exact hs2)
  · intro s hfs2
    dsimp only at hfs2 ⊢
    rw [hfind] at hfs2
    cases hfs : tl.tracks.find? (fun t => t.is_soloed) with
    | none => rw [hfs] at hfs2; cases hfs2
    | some s0 =>
      rw [hfs] at hfs2
      rw [show Option.map (fun s => if s.id = i then f s else s) (some s0) =
        some (if s0.id = i then f s0 else s0) from rfl] at hfs2
      obtain rfl : (if s0.id = i then f s0 else s0) = s := Option.some.inj hfs2
      have hs0m := List.mem_of_find?_eq_some hfs
      have hA := hciS s0 hfs
      have hsid : (if s0.id = i then f s0 else s0).id = s0.id := by
        by_cases h2 : s0.id = i
        · rw [if_pos h2, (hpres s0 hs0m h2).1]
        · rw [if_neg h2]
      rw [hsid, hA,
        othersUnmutedIds_update hnd
          (fun t ht hid => ⟨(hpres t ht hid).1, (hpres t ht hid).2.1⟩)]
  · intro hn
    dsimp only at hn ⊢
    rw [hfind] at hn
    cases hfs : tl.tracks.find? (fun t => t.is_soloed) with
    | some s0 => rw [hfs] at hn; cases hn
    | none =>
      rw [unmutedIds_update hnd
        (fun t ht hid => ⟨(hpres t ht hid).1, (hpres t ht hid).2.1⟩)]
      exact hciN hfs

theorem inv_set_volume {tl tl2 : Timeline} {i : ℕ} {p : ℚ}
    (h : Inv tl) (he : tl.set_volume i p = .ok tl2) : Inv tl2 := by
  unfold Timeline.set_volume at he
  cases hg : tl.get_track i with
  | none => rw [hg] at he; simp at he
  | some track =>
    rw [hg] at he
    dsimp only at he
    cases hsv : track.set_volume_percent p with
    | error e => rw [hsv] at he; simp at he
    | ok track2 =>
      rw [hsv] at he
      simp only [Except.ok.injEq] at he
      subst he
      obtain ⟨htm, hti⟩ := get_track_id hg
      have hnd := nodup_ids_of_sorted h.1
      have hshape : track2.id = track.id ∧ track2.is_muted = track.is_muted ∧
          track2.is_soloed = track.is_soloed := by
        unfold Track.set_volume_percent at hsv
        dsimp only at hsv
        split at hsv
        · cases hsv
        · simp only [Except.ok.injEq] at hsv
          rw [← hsv]
          exact ⟨rfl, rfl, rfl⟩
      apply inv_update_preserving h
      intro t ht hid
      have heq : t = track := track_eq_of_id_eq hnd ht htm (hid.trans hti.symm)
      subst heq
      exact hshape

theorem inv_set_track_name {tl tl2 : Timeline} {i : ℕ} {nm : String}
    (h : Inv tl) (he : tl.set_track_name i nm = .ok tl2) : Inv tl2 := by
  unfold Timeline.set_track_name at he
  cases hg : tl.get_track i with
  | none => rw [hg] at he; simp at he
  | some track =>
    rw [hg] at he
    dsimp only at he
    simp only [Except.ok.injEq] at he
    subst he
    apply inv_update_preserving h
    intro t _ _
    exact ⟨rfl, rfl, rfl⟩

theorem inv_add_clip {tl tl2 : Timeline} {r : Clip.ResampleFn} {i : ℕ}
    {src : WavSource} (h : Inv tl) (he : tl.add_clip r i src = .ok tl2) :
    Inv tl2 := by
  unfold Timeline.add_clip at he
  dsimp only at he
  cases hg : tl.get_track i with
  | none => rw [hg] at he; simp at he
  | some track =>
    rw [hg] at he
    dsimp only at he
    cases hac : track.add_clip r src tl.sample_rate with
    | error e => rw [hac] at he; simp at he
    | ok track2 =>
      rw [hac] at he
      simp only [Except.ok.injEq] at he
      subst he
      obtain ⟨htm, hti⟩ := get_track_id hg
      have hnd := nodup_ids_of_sorted h.1
      have hshape : track2.id = track.id ∧ track2.is_muted = track.is_muted ∧
          track2.is_soloed = track.is_soloed := by
        unfold Track.add_clip at hac
        dsimp only at hac
        split at hac
        · cases hac
        · simp only [Except.ok.injEq] at hac
          rw [← hac]
          exact ⟨rfl, rfl, rfl⟩
      apply inv_update_preserving h
      intro t ht hid
      have heq : t = track := track_eq_of_id_eq hnd ht htm (hid.trans hti.symm)
      subst heq
      exact ⟨hshape.1, hshape.2.1, hshape.2.2⟩

theorem inv_process {tl tl2 : Timeline} {buffer out : List ℚ} {oc : ℕ}
    (h : Inv tl) (he : tl.process buffer oc = some (tl2, out)) : Inv tl2 := by
  unfold Timeline.process at he
  by_cases hc : oc = 0
  · rw [if_pos hc] at he
    cases he
  · rw [if_neg hc] at he
    dsimp only at he
    have h2 := Option.some.inj he
    have h3 : (Timeline.process_loop tl (List.replicate buffer.length 0) oc 0
        (buffer.length / oc)).1 = tl2 := congrArg Prod.fst h2
    rw [← h3, (process_loop_spec _ _ _ _ _).1]
    exact h


theorem inv_mute {tl tl2 : Timeline} {i : ℕ}
    (h : Inv tl) (he : tl.mute i = .ok tl2) : Inv tl2 := by
  obtain ⟨hsort, hamo, hciS, hciN⟩ := h
  have hnd := nodup_ids_of_sorted hsort
  unfold Timeline.mute at he
  cases hg : tl.get_track i with
  | none => rw [hg] at he; simp at he
  | some track =>
    rw [hg] at he
    dsimp only at he
    obtain ⟨htm, hti⟩ := get_track_id hg
    by_cases hm : track.is_muted
    · simp [hm] at he
      subst he
      exact ⟨hsort, hamo, hciS, hciN⟩
    · have hm2 : track.is_muted = false := by simpa using hm
      simp only [hm2, Bool.not_false, if_true, Except.ok.injEq] at he
      subst he
      have hmap : (Timeline.update_first_track tl.tracks i
          (fun t => Track.unsolo (Track.mute t))).map Track.id =
          tl.tracks.map Track.id := map_update_first (fun t _ _ => rfl)
      refine ⟨?_, ?_, ?_, ?_⟩
      · unfold IdsSorted
        dsimp only
        rw [hmap]
        exact hsort
      · intro t1 h1 t2 h2 hp1 hp2
        dsimp only at h1 h2
        rcases (mem_update_first_track hnd).1 h1 with ⟨m1, _⟩ | ⟨u1, hu1, _, rfl⟩
        · rcases (mem_update_first_track hnd).1 h2 with ⟨m2, _⟩ | ⟨u2, hu2, _, rfl⟩
          · exact hamo t1 m1 t2 m2 hp1 hp2
          · simp at hp2
        · simp at hp1
      · intro s hfs2
        dsimp only at hfs2 ⊢
        have hsmem := List.mem_of_find?_eq_some hfs2
        have hssol : s.is_soloed = true := by simpa using List.find?_some hfs2
        cases hfs : tl.tracks.find? (fun t => t.is_soloed) with
        | none =>
          exfalso
          rcases (mem_update_first_track hnd).1 hsmem with ⟨ms, _⟩ | ⟨u, hu, _, rfl⟩
          · exact absurd hssol (by simpa using List.find?_eq_none.1 hfs s ms)
          · simp at hssol
        | some s0 =>
          have hs0m := List.mem_of_find?_eq_some hfs
          have hs0s : s0.is_soloed = true := by simpa using List.find?_some hfs
          have hA := hciS s0 hfs
          by_cases hsi : s0.id = i
          · exfalso
            rcases (mem_update_first_track hnd).1 hsmem with ⟨ms, hsne⟩ | ⟨u, hu, _, rfl⟩
            · exact hsne ((hamo s ms s0 hs0m hssol hs0s).trans hsi)
            · simp at hssol
          · have hseq : s = s0 := by
              rcases (mem_update_first_track hnd).1 hsmem with ⟨ms, _⟩ | ⟨u, hu, _, rfl⟩
              · exact track_eq_of_id_eq hnd ms hs0m (hamo s ms s0 hs0m hssol hs0s)
              · simp at hssol
            subst hseq
            apply Finset.ext
            intro j
            rw [Finset.mem_erase, hA, Finset.mem_insert, Finset.mem_insert,
              mem_othersUnmutedIds, mem_othersUnmutedIds, exists_mem_update_first hnd]
            constructor
            · rintro ⟨hji, hjs | ⟨x, hx, hxj, hxs, hxm⟩⟩
              · exact .inl hjs
              · exact .inr (.inl ⟨x, hx, by rw [hxj]; exact hji, hxj, hxs, hxm⟩)
            · rintro (hjs | (⟨x, hx, hxi, hxj, hxs, hxm⟩ | ⟨t, ht, hti2, ht2⟩))
              · exact ⟨by rw [hjs]; exact fun hc => hsi hc, .inl hjs⟩
              · exact ⟨by rw [← hxj]; exact hxi, .inr ⟨x, hx, hxj, hxs, hxm⟩⟩
              · simp at ht2
      · intro hn
        dsimp only at hn ⊢
        cases hfs : tl.tracks.find? (fun t => t.is_soloed) with
        | some s0 =>
          have hs0m := List.mem_of_find?_eq_some hfs
          have hs0s : s0.is_soloed = true := by simpa using List.find?_some hfs
          have hA := hciS s0 hfs
          by_cases hsi : s0.id = i
          · apply Finset.ext
            intro j
            rw [Finset.mem_erase, hA, Finset.mem_insert, mem_othersUnmutedIds,
              mem_unmutedIds, exists_mem_update_first hnd]
            constructor
            · rintro ⟨hji, hjs | ⟨x, hx, hxj, hxs, hxm⟩⟩
              · exact absurd (hjs.trans hsi) hji
              · exact .inl ⟨x, hx, fun hc => hxs (hc.trans hsi.symm), hxj, hxm⟩
            · rintro (⟨x, hx, hxi, hxj, hxm⟩ | ⟨t, ht, hti2, ht2⟩)
              · exact ⟨by rw [← hxj]; exact hxi, .inr ⟨x, hx, hxj,
                  fun hc => hxi (hc.trans hsi), hxm⟩⟩
              · simp at ht2
          · exfalso
            have hmem : s0 ∈ Timeline.update_first_track tl.tracks i
                (fun t => Track.unsolo (Track.mute t)) :=
              (mem_update_first_track hnd).2 (.inl ⟨hs0m, fun hc => hsi hc⟩)
            exact absurd hs0s (by simpa using List.find?_eq_none.1 hn s0 hmem)
        | none =>
          have hA := hciN hfs
          apply Finset.ext
          intro j
          rw [Finset.mem_erase, hA, mem_unmutedIds, mem_unmutedIds,
            exists_mem_update_first hnd]
          constructor
          · rintro ⟨hji, x, hx, hxj, hxm⟩
            exact .inl ⟨x, hx, by rw [hxj]; exact hji, hxj, hxm⟩
          · rintro (⟨x, hx, hxi, hxj, hxm⟩ | ⟨t, ht, hti2, ht2⟩)
            · exact ⟨by rw [← hxj]; exact hxi, x, hx, hxj, hxm⟩
            · simp at ht2

theorem inv_unmute {tl tl2 : Timeline} {i : ℕ}
    (h : Inv tl) (he : tl.unmute i = .ok tl2) : Inv tl2 := by
  obtain ⟨hsort, hamo, hciS, hciN⟩ := h
  have hnd := nodup_ids_of_sorted hsort
  unfold Timeline.unmute at he
  cases hg : tl.get_track i with
  | none => rw [hg] at he; simp at he
  | some track =>
    rw [hg] at he
    dsimp only at he
    obtain ⟨htm, hti⟩ := get_track_id hg
    by_cases hm : track.is_muted
    case neg =>
      simp [hm] at he
      subst he
      exact ⟨hsort, hamo, hciS, hciN⟩
    case pos =>
      simp only [hm, if_true, Except.ok.injEq] at he
      subst he
      have hfind : (Timeline.update_first_track tl.tracks i Track.unmute).find?
            (fun t => t.is_soloed) =
          (tl.tracks.find? (fun t => t.is_soloed)).map
            (fun s => if s.id = i then Track.unmute s else s) :=
        find?_update_first hnd (fun t _ _ => rfl)
      have hmap : (Timeline.update_first_track tl.tracks i Track.unmute).map
          Track.id = tl.tracks.map Track.id := map_update_first (fun t _ _ => rfl)
      refine ⟨?_, ?_, ?_, ?_⟩
      · unfold IdsSorted
        dsimp only
        rw [hmap]
        exact hsort
      · intro t1 h1 t2 h2 hp1 hp2
        dsimp only at h1 h2
        rcases (mem_update_first_track hnd).1 h1 with ⟨m1, _⟩ | ⟨u1, hu1, _, rfl⟩ <;>
          rcases (mem_update_first_track hnd).1 h2 with ⟨m2, _⟩ | ⟨u2, hu2, _, rfl⟩
        · exact hamo t1 m1 t2 m2 hp1 hp2
        · exact hamo t1 m1 u2 hu2 hp1 hp2
        · exact hamo u1 hu1 t2 m2 hp1 hp2
        · exact hamo u1 hu1 u2 hu2 hp1 hp2
      · intro s hfs2
        dsimp only at hfs2 ⊢
        rw [hfind] at hfs2
        cases hfs : tl.tracks.find? (fun t => t.is_soloed) with
        | none => rw [hfs] at hfs2; simp at hfs2
        | some s0 =>
          rw [hfs] at hfs2
          rw [show Option.map (fun s => if s.id = i then Track.unmute s else s)
            (some s0) = some (if s0.id = i then Track.unmute s0 else s0) from rfl]
            at hfs2
          obtain rfl : (if s0.id = i then Track.unmute s0 else s0) = s :=
            Option.some.inj hfs2
          have hs0m := List.mem_of_find?_eq_some hfs
          have hA := hciS s0 hfs
          by_cases hsi : s0.id = i
          · rw [if_pos hsi]
            simp only [Track.unmute_id]
            have hothers : othersUnmutedIds
                (Timeline.update_first_track tl.tracks i Track.unmute) s0.id =
                othersUnmutedIds tl.tracks s0.id := by
              apply Finset.ext
              intro j
              rw [mem_othersUnmutedIds, mem_othersUnmutedIds,
                exists_mem_update_first hnd]
              constructor
              · rintro (⟨x, hx, _, hq⟩ | ⟨t, ht, hti2, hq1, hq2, hq3⟩)
                · exact ⟨x, hx, hq⟩
                · exact absurd (hti2.trans hsi.symm) hq2
              · rintro ⟨x, hx, hq1, hq2, hq3⟩
                exact .inl ⟨x, hx, fun hc => hq2 (hc.trans hsi.symm), hq1, hq2, hq3⟩
            rw [hothers, hA, hsi, Finset.insert_idem]
          · rw [if_neg hsi]
            have hi_ne : i ≠ s0.id := fun hc => hsi hc.symm
            have hothers2 : othersUnmutedIds
                (Timeline.update_first_track tl.tracks i Track.unmute) s0.id =
                insert i (othersUnmutedIds tl.tracks s0.id) := by
              apply Finset.ext
              intro j
              rw [mem_othersUnmutedIds, Finset.mem_insert, mem_othersUnmutedIds,
                exists_mem_update_first hnd]
              constructor
              · rintro (⟨x, hx, _, hq⟩ | ⟨t, ht, hti2, hq1, hq2, hq3⟩)
                · exact .inr ⟨x, hx, hq⟩
                · exact .inl (hq1.symm.trans hti2)
              · rintro (rfl | ⟨x, hx, hq1, hq2, hq3⟩)
                · refine .inr ⟨track, htm, hti, hti, ?_, rfl⟩
                  show track.id ≠ s0.id
                  rw [hti]
                  exact hi_ne
                · by_cases hxi : x.id = i
                  · exfalso
                    have hxt : x = track :=
                      track_eq_of_id_eq hnd hx htm (hxi.trans hti.symm)
                    rw [hxt] at hq3
                    rw [hq3] at hm
                    exact Bool.noConfusion hm
                  · exact .inl ⟨x, hx, hxi, hq1, hq2, hq3⟩
            rw [hothers2, hA, Finset.Insert.comm]
      · intro hn
        dsimp only at hn ⊢
        rw [hfind] at hn
        cases hfs : tl.tracks.find? (fun t => t.is_soloed) with
        | some s0 => rw [hfs] at hn; simp at hn
        | none =>
          have hA := hciN hfs
          have hU : unmutedIds
              (Timeline.update_first_track tl.tracks i Track.unmute) =
              insert i (unmutedIds tl.tracks) := by
            apply Finset.ext
            intro j
            rw [mem_unmutedIds, Finset.mem_insert, mem_unmutedIds,
              exists_mem_update_first hnd]
            constructor
            · rintro (⟨x, hx, _, hq⟩ | ⟨t, ht, hti2, hq1, hq2⟩)
              · exact .inr ⟨x, hx, hq⟩
              · exact .inl (hq1.symm.trans hti2)
            · rintro (rfl | ⟨x, hx, hq1, hq2⟩)
              · exact .inr ⟨track, htm, hti, hti, rfl⟩
              · by_cases hxi : x.id = i
                · exfalso
                  have hxt : x = track :=
                    track_eq_of_id_eq hnd hx htm (hxi.trans hti.symm)
                  rw [hxt] at hq2
                  rw [hq2] at hm
                  exact Bool.noConfusion hm
                · exact .inl ⟨x, hx, hxi, hq1, hq2⟩
          rw [hU, hA]


theorem inv_solo {tl tl2 : Timeline} {i : ℕ}
    (h : Inv tl) (he : tl.solo i = .ok tl2) : Inv tl2 := by
  obtain ⟨hsort, hamo, hciS, hciN⟩ := h
  have hnd := nodup_ids_of_sorted hsort
  unfold Timeline.solo at he
  cases hg : tl.get_track i with
  | none => rw [hg] at he; simp at he
  | some track =>
    rw [hg] at he
    dsimp only at he
    obtain ⟨htm, hti⟩ := get_track_id hg
    by_cases hs : track.is_soloed
    · simp [hs] at he
      subst he
      exact ⟨hsort, hamo, hciS, hciN⟩
    · have hs2 : track.is_soloed = false := by simpa using hs
      simp only [hs2, Bool.not_false, if_true, Except.ok.injEq] at he
      subst he
      have hfind : (Timeline.solo_tracks tl.tracks i).find?
          (fun t => t.is_soloed) = some (Track.solo track) := by
        apply find?_eq_some_of_unique
        · intro t1 h1 t2 h2 hp1 hp2
          rw [solo_tracks_soloed_eq hnd hg h1 hp1,
            solo_tracks_soloed_eq hnd hg h2 hp2]
        · exact List.mem_of_find?_eq_some (solo_tracks_get hnd hg)
        · rfl
      refine ⟨?_, ?_, ?_, ?_⟩
      · unfold IdsSorted
        dsimp only
        rw [solo_tracks_map_id]
        exact hsort
      · intro t1 h1 t2 h2 hp1 hp2
        dsimp only at h1 h2
        rw [solo_tracks_soloed_eq hnd hg h1 hp1,
          solo_tracks_soloed_eq hnd hg h2 hp2]
      · intro s hfs2
        dsimp only at hfs2 ⊢
        rw [hfind] at hfs2
        obtain rfl : Track.solo track = s := Option.some.inj hfs2
        simp only [Track.solo_id]
        have hothers : othersUnmutedIds (Timeline.solo_tracks tl.tracks i)
            track.id = ∅ := by
          apply Finset.eq_empty_iff_forall_not_mem.2
          intro j hj
          rw [mem_othersUnmutedIds] at hj
          obtain ⟨x, hx, hxj, hxne, hxm⟩ := hj
          have hxi : x.id ≠ i := fun hc => hxne (hc.trans hti.symm)
          have := (solo_tracks_others hx hxi).2
          rw [this] at hxm
          exact Bool.noConfusion hxm
        rw [hothers, hti]
        rfl
      · intro hn
        dsimp only at hn
        rw [hfind] at hn
        exact Option.noConfusion hn

theorem inv_unsolo {tl tl2 : Timeline} {i : ℕ}
    (h : Inv tl) (he : tl.unsolo i = .ok tl2) : Inv tl2 := by
  obtain ⟨hsort, hamo, hciS, hciN⟩ := h
  have hnd := nodup_ids_of_sorted hsort
  unfold Timeline.unsolo at he
  cases hg : tl.get_track i with
  | none => rw [hg] at he; simp at he
  | some track =>
    rw [hg] at he
    dsimp only at he
    obtain ⟨htm, hti⟩ := get_track_id hg
    by_cases hs : track.is_soloed
    case neg =>
      simp [hs] at he
      subst he
      exact ⟨hsort, hamo, hciS, hciN⟩
    case pos =>
      have hstrack : tl.tracks.find? (fun t => t.is_soloed) = some track := by
        apply find?_eq_some_of_unique
        · intro t1 h1 t2 h2 hp1 hp2
          exact track_eq_of_id_eq hnd h1 h2 (hamo t1 h1 t2 h2 hp1 hp2)
        · exact htm
        · exact hs
      have hA := hciS track hstrack
      rw [hti] at hA
      have hUnone : (Timeline.update_first_track tl.tracks i
          Track.unsolo).find? (fun t => t.is_soloed) = none := by
        rw [List.find?_eq_none]
        intro x hx
        rcases (mem_update_first_track hnd).1 hx with ⟨mx, hxne⟩ | ⟨u, hu, _, rfl⟩
        · intro hxs
          exact hxne ((hamo x mx track htm (by simpa using hxs) hs).trans hti)
        · simp
      have hmap : (Timeline.update_first_track tl.tracks i Track.unsolo).map
          Track.id = tl.tracks.map Track.id := map_update_first (fun t _ _ => rfl)
      have hsortU : IdsSorted (Timeline.update_first_track tl.tracks i
          Track.unsolo) := by
        unfold IdsSorted
        rw [hmap]
        exact hsort
      have hamoU : AtMostOneSoloed (Timeline.update_first_track tl.tracks i
          Track.unsolo) := by
        intro t1 h1 t2 h2 hp1 hp2
        exact absurd hp1 (by simpa using List.find?_eq_none.1 hUnone t1 h1)
      have hinotin : i ∉ othersUnmutedIds tl.tracks i := by
        intro hmem
        rw [mem_othersUnmutedIds] at hmem
        obtain ⟨x, _, hxj, hxne, _⟩ := hmem
        exact hxne hxj
      by_cases hm : track.is_muted
      case pos =>
        simp only [hs, if_true, hm, Except.ok.injEq] at he
        subst he
        refine ⟨hsortU, hamoU, ?_, ?_⟩
        · intro s hfs2
          dsimp only at hfs2
          rw [hUnone] at hfs2
          exact Option.noConfusion hfs2
        · intro _
          dsimp only
          have hUeq : unmutedIds (Timeline.update_first_track tl.tracks i
              Track.unsolo) = othersUnmutedIds tl.tracks i := by
            apply Finset.ext
            intro j
            rw [mem_unmutedIds, mem_othersUnmutedIds, exists_mem_update_first hnd]
            constructor
            · rintro (⟨x, hx, hxi, hq1, hq2⟩ | ⟨t, ht, hti2, hq1, hq2⟩)
              · exact ⟨x, hx, hq1, hxi, hq2⟩
              · exfalso
                have hxt : t = track :=
                  track_eq_of_id_eq hnd ht htm (hti2.trans hti.symm)
                rw [hxt] at hq2
                rw [show (Track.unsolo track).is_muted = track.is_muted from rfl,
                  hm] at hq2
                exact Bool.noConfusion hq2
            · rintro ⟨x, hx, hxj, hxne, hxm⟩
              exact .inl ⟨x, hx, hxne, hxj, hxm⟩
          rw [hUeq, hA, Finset.erase_insert hinotin]
      case neg =>
        have hm2 : track.is_muted = false := by simpa using hm
        simp only [hs, if_true, hm2, Bool.false_eq_true, if_false,
          Except.ok.injEq] at he
        subst he
        refine ⟨hsortU, hamoU, ?_, ?_⟩
        · intro s hfs2
          dsimp only at hfs2
          rw [hUnone] at hfs2
          exact Option.noConfusion hfs2
        · intro _
          dsimp only
          have hUeq : unmutedIds (Timeline.update_first_track tl.tracks i
              Track.unsolo) = insert i (othersUnmutedIds tl.tracks i) := by
            apply Finset.ext
            intro j
            rw [mem_unmutedIds, Finset.mem_insert, mem_othersUnmutedIds,
              exists_mem_update_first hnd]
            constructor
            · rintro (⟨x, hx, hxi, hq1, hq2⟩ | ⟨t, ht, hti2, hq1, hq2⟩)
              · exact .inr ⟨x, hx, hq1, hxi, hq2⟩
              · exact .inl (hq1.symm.trans hti2)
            · rintro (rfl | ⟨x, hx, hxj, hxne, hxm⟩)
              · exact .inr ⟨track, htm, hti, hti, hm2⟩
              · exact .inl ⟨x, hx, hxne, hxj, hxm⟩
          rw [hUeq, hA]


/-! ## Claims C1, C2, C3 (amended) -/

/-- C1 amended: every reachable timeline satisfies the invariant the
code actually maintains — track ids are strictly increasing, at most
one track is ever soloed, and the cached audible set equals the soloed
track plus every non-muted *other* track when a track is soloed
(`new_track` and `unmute` insert non-muted tracks into the cache even
while a solo is active), and exactly the non-muted tracks when no track
is soloed.  In particular the spec's claimed invariant does hold in
every reachable state with no soloed track. -/
theorem c1_amended_cache_invariant :
    ∀ tl : Timeline, Reachable tl →
      Inv tl ∧
        ((∀ t ∈ tl.tracks, t.is_soloed = false) → ClaimedAudibleInv tl) := by
  intro tl h
  have hinv : Inv tl := by
    induction h with
    | new r => exact inv_new r
    | new_track _ ih => exact inv_new_track ih
    | mute _ he ih => exact inv_mute ih he
    | unmute _ he ih => exact inv_unmute ih he
    | solo _ he ih => exact inv_solo ih he
    | unsolo _ he ih => exact inv_unsolo ih he
    | set_volume _ he ih => exact inv_set_volume ih he
    | set_track_name _ he ih => exact inv_set_track_name ih he
    | add_clip _ he ih => exact inv_add_clip ih he
    | reset_playhead _ ih => exact ih
    | process _ he ih => exact inv_process ih he
  refine ⟨hinv, ?_⟩
  intro hns
  have hfn : tl.tracks.find? (fun t => t.is_soloed) = none :=
    List.find?_eq_none.2 (fun x hx => by rw [hns x hx]; simp)
  have hA := hinv.2.2.2 hfn
  unfold ClaimedAudibleInv
  have hany : tl.tracks.any (fun t => t.is_soloed) = false := by
    rw [List.any_eq_false]
    intro x hx
    rw [hns x hx]
    simp
  rw [hany]
  simp only [Bool.false_eq_true, if_false]
  exact hA

/-- Witness for `c1_amended_cache_invariant` at the reachable two-track
timeline. -/
theorem c1_amended_witness :
    Inv tlTwo ∧
      ((∀ t ∈ tlTwo.tracks, t.is_soloed = false) → ClaimedAudibleInv tlTwo) :=
  c1_amended_cache_invariant tlTwo
    (Reachable.new_track (Reachable.new_track (Reachable.new 44100)))

/-- C2 amended: for every timeline with distinct track ids and existing
track t, if t is not already soloed then `solo(t)` returns `Ok`, sets
t's soloed flag (leaving t's muted flag unchanged), and unsoloes and
mutes every other track; if t is already soloed the call returns `Ok`
as a no-op, leaving the timeline (and the other tracks' flags)
unchanged. -/
theorem c2_amended_solo_exclusive :
    ∀ (tl : Timeline) (i : ℕ) (track : Track),
      (tl.tracks.map Track.id).Nodup →
      tl.get_track i = some track →
      (track.is_soloed = false →
        ∃ tl2, tl.solo i = .ok tl2 ∧
          tl2.get_track i = some (Track.solo track) ∧
          (Track.solo track).is_muted = track.is_muted ∧
          ∀ t2 ∈ tl2.tracks, t2.id ≠ i →
            t2.is_soloed = false ∧ t2.is_muted = true) ∧
      (track.is_soloed = true → tl.solo i = .ok tl) := by
  intro tl i track hnd hg
  constructor
  · intro hs
    have hsolo : tl.solo i = .ok { tl with
        tracks := Timeline.solo_tracks tl.tracks i,
        active_track_ids := {i} } := by
      unfold Timeline.solo
      rw [hg]
      simp [hs]
    refine ⟨_, hsolo, ?_, rfl, ?_⟩
    · exact solo_tracks_get hnd hg
    · intro t2 ht2 hne
      exact solo_tracks_others ht2 hne
  · intro hs
    unfold Timeline.solo
    rw [hg]
    simp [hs]

/-- Witness for `c2_amended_solo_exclusive` on the two-track timeline,
soloing track 1. -/
theorem c2_amended_witness :
    ((Track.new 1).is_soloed = false →
      ∃ tl2, tlTwo.solo 1 = .ok tl2 ∧
        tl2.get_track 1 = some (Track.solo (Track.new 1)) ∧
        (Track.solo (Track.new 1)).is_muted = (Track.new 1).is_muted ∧
        ∀ t2 ∈ tl2.tracks, t2.id ≠ 1 →
          t2.is_soloed = false ∧ t2.is_muted = true) ∧
    ((Track.new 1).is_soloed = true → tlTwo.solo 1 = .ok tlTwo) :=
  c2_amended_solo_exclusive tlTwo 1 (Track.new 1) (by decide) (by decide)

/-- C3 amended: for every timeline with distinct track ids and existing
track t, `mute(t)` returns `Ok` and afterwards t's muted flag is true;
t's soloed flag is cleared provided t was not already muted; when t was
already muted the call is a no-op and t's soloed flag (like everything
else) is unchanged. -/
theorem c3_amended_mute_guarded :
    ∀ (tl : Timeline) (i : ℕ) (track : Track),
      (tl.tracks.map Track.id).Nodup →
      tl.get_track i = some track →
      ∃ tl2, tl.mute i = .ok tl2 ∧
        (∃ track2, tl2.get_track i = some track2 ∧ track2.is_muted = true ∧
          (track.is_muted = false → track2.is_soloed = false)) ∧
        (track.is_muted = true → tl2 = tl) := by
  intro tl i track hnd hg
  by_cases hm : track.is_muted
  · have hmute : tl.mute i = .ok tl := by
      unfold Timeline.mute
      rw [hg]
      simp [hm]
    exact ⟨tl, hmute,
      ⟨track, hg, hm, fun hc => Bool.noConfusion (hm.symm.trans hc)⟩,
      fun _ => rfl⟩
  · have hm2 : track.is_muted = false := by simpa using hm
    have hmute : tl.mute i = .ok { tl with
        tracks := Timeline.update_first_track tl.tracks i
          (fun t => Track.unsolo (Track.mute t)),
        active_track_ids := tl.active_track_ids.erase i } := by
      unfold Timeline.mute
      rw [hg]
      simp [hm2]
    refine ⟨_, hmute,
      ⟨Track.unsolo (Track.mute track), ?_, rfl, fun _ => rfl⟩,
      fun hc => Bool.noConfusion (hc.symm.trans hm2)⟩
    exact find_id_update_first hnd hg rfl

/-- Witness for `c3_amended_mute_guarded` on the two-track timeline,
muting track 1. -/
theorem c3_amended_witness :
    ∃ tl2, tlTwo.mute 1 = .ok tl2 ∧
      (∃ track2, tl2.get_track 1 = some track2 ∧ track2.is_muted = true ∧
        ((Track.new 1).is_muted = false → track2.is_soloed = false)) ∧
      ((Track.new 1).is_muted = true → tl2 = tlTwo) :=
  c3_amended_mute_guarded tlTwo 1 (Track.new 1) (by decide) (by decide)

end Zari
